import Mathlib

/-!
Verification of the coordinate / grammar-map core of the
Intergrated-Spreadsheet-Environment repository.

The embedding follows `src/coordinate.rs` and `src/model.rs`.  Modules of the
repository that are referenced but not present under `src/` (`grammar.rs`,
`util.rs`, `session.rs`, `coordinate.pest`) are modelled from the
specification; each such definition carries a doc comment starting with
`Modelled from the spec:`.

Rust `NonZeroU32` components are modelled as `Nat` (well-formed coordinates
have positive components; the operations the claims exercise stay far below
`2^32`, where `u32` arithmetic agrees with `Nat` arithmetic).  A Rust panic
(`unwrap` / `expect` failure) is modelled as `none` of an `Option` result.
Text is modelled as the list of Unicode scalar values of its characters,
matching the source's `ch as u32` arithmetic.
-/

namespace ISE

/-- The scalar values of a string literal (Rust `char as u32`), used to state text
facts; coordinate text is modelled as the list of scalar values of its characters. -/
def str (s : String) : List Nat := s.toList.map Char.toNat

/-- src/coordinate.rs: `pub struct Coordinate { pub row_cols: Vec<(NonZeroU32, NonZeroU32)> }`. -/
structure Coordinate where
  row_cols : List (Nat × Nat)
deriving DecidableEq, Repr

/-- src/coordinate.rs `Coordinate::child_of`: append one (row, col) pair. -/
def Coordinate.child_of (parent : Coordinate) (child_coord : Nat × Nat) : Coordinate :=
  ⟨parent.row_cols ++ [child_coord]⟩

/-- src/coordinate.rs `Coordinate::parent`: `None` if the length is 1, else pop the
last pair.  (On the empty coordinate Rust's `Vec::pop` leaves the vector empty, so the
result is `some ⟨[]⟩` there, mirroring the source exactly.) -/
def Coordinate.parent (c : Coordinate) : Option Coordinate :=
  if c.row_cols.length = 1 then none else some ⟨c.row_cols.dropLast⟩

/-- src/coordinate.rs `Coordinate::row`: the last pair's row.  The source panics on an
empty coordinate; the empty case returns the junk value 0 (well-formed rows are ≥ 1,
and every use in the model is guarded to nonempty coordinates). -/
def Coordinate.row (c : Coordinate) : Nat :=
  match c.row_cols.getLast? with
  | some p => p.1
  | none => 0

/-- src/coordinate.rs `Coordinate::col`: the last pair's column (same conventions as `row`). -/
def Coordinate.col (c : Coordinate) : Nat :=
  match c.row_cols.getLast? with
  | some p => p.2
  | none => 0

/-- src/coordinate.rs `Row(parent, row_index)`. -/
structure Row where
  parentc : Coordinate
  idx : Nat
deriving DecidableEq, Repr

/-- src/coordinate.rs `Col(parent, col_index)`. -/
structure Col where
  parentc : Coordinate
  idx : Nat
deriving DecidableEq, Repr

/-- src/coordinate.rs `Coordinate::full_row`: `Row(self.parent().expect(..), self.row())`.
The source panics when the coordinate has no parent (length 1) and also, inside `row()`,
when it is empty; both panic paths are `none`. -/
def Coordinate.full_row (c : Coordinate) : Option Row :=
  match c.parent, c.row_cols.getLast? with
  | some p, some last => some ⟨p, last.1⟩
  | _, _ => none

/-- src/coordinate.rs `Coordinate::full_col` (same conventions as `full_row`). -/
def Coordinate.full_col (c : Coordinate) : Option Col :=
  match c.parent, c.row_cols.getLast? with
  | some p, some last => some ⟨p, last.2⟩
  | _, _ => none

/-- src/coordinate.rs `Coordinate::neighbor_above`: decrement the last pair's row if it
is > 1, else `None`. -/
def Coordinate.neighbor_above (c : Coordinate) : Option Coordinate :=
  match c.row_cols.getLast? with
  | none => none
  | some last =>
    if last.1 > 1 then some ⟨c.row_cols.dropLast ++ [(last.1 - 1, last.2)]⟩ else none

/-- src/coordinate.rs `Coordinate::neighbor_below`: increment the last pair's row. -/
def Coordinate.neighbor_below (c : Coordinate) : Option Coordinate :=
  match c.row_cols.getLast? with
  | none => none
  | some last => some ⟨c.row_cols.dropLast ++ [(last.1 + 1, last.2)]⟩

/-- src/coordinate.rs `Coordinate::neighbor_left`: decrement the last pair's column if it
is > 1, else `None`. -/
def Coordinate.neighbor_left (c : Coordinate) : Option Coordinate :=
  match c.row_cols.getLast? with
  | none => none
  | some last =>
    if last.2 > 1 then some ⟨c.row_cols.dropLast ++ [(last.1, last.2 - 1)]⟩ else none

/-- src/coordinate.rs `Coordinate::neighbor_right`: increment the last pair's column. -/
def Coordinate.neighbor_right (c : Coordinate) : Option Coordinate :=
  match c.row_cols.getLast? with
  | none => none
  | some last => some ⟨c.row_cols.dropLast ++ [(last.1, last.2 + 1)]⟩

/-! ### Coordinate text: parsing (the `coord!` macro) and rendering -/

/-- An ASCII upper-case letter `A`..`Z`. -/
def isUpperCode (c : Nat) : Bool := 65 ≤ c && c ≤ 90

/-- An ASCII digit `0`..`9`. -/
def isDigitCode (c : Nat) : Bool := 48 ≤ c && c ≤ 57

/-- Decimal value of a digit run (Rust `str::parse::<u32>`). -/
def digitsVal (ds : List Nat) : Nat := ds.foldl (fun a c => 10 * a + (c - 48)) 0

/-- src/coordinate.rs `coord!`: `for ch in .. { val += (ch as u32) - 64 }` — the column
value of an alphabetic run is the SUM of the per-character offsets. -/
def letterSum (ls : List Nat) : Nat := ls.foldl (fun a c => a + (c - 64)) 0

/-- src/coordinate.rs `coord!` fragment case: an alphabetic run followed by a digit run
(the shape `alpha+ digit+` is modelled from the spec, `coordinate.pest` being absent
from src/); the column is the letter sum, the row the decimal value.  A zero row makes
`non_zero_u32_tuple` panic, i.e. the parse fails. -/
def parseFragment (f : List Nat) : Option (Nat × Nat) :=
  let alpha := f.takeWhile isUpperCode
  let ds := f.dropWhile isUpperCode
  if alpha.isEmpty then none
  else if ds.isEmpty then none
  else if ds.all isDigitCode then
    let row := digitsVal ds
    if row = 0 then none else some (row, letterSum alpha)
  else none

/-- Split a text at 45 (the character `-`), keeping empty groups. -/
def splitDash : List Nat → List (List Nat)
  | [] => [[]]
  | c :: rest =>
    match splitDash rest with
    | [] => [[]]
    | g :: gs => if c = 45 then [] :: g :: gs else (c :: g) :: gs

/-- Join groups with 45 (the character `-`) between them. -/
def joinDash : List (List Nat) → List Nat
  | [] => []
  | [g] => g
  | g :: g2 :: gs => g ++ 45 :: joinDash (g2 :: gs)

/-- src/coordinate.rs `coord!` macro: split on `-`; the first fragment may be the
special token `root` (pair (1,1)) or `meta` (pair (1,2)), every other fragment is
letters-then-digits.  A parse failure panics in the source (`unwrap_or_else(panic)`). -/
def parseCoordL (l : List Nat) : Option Coordinate :=
  match splitDash l with
  | [] => none
  | first :: rest =>
    let firstPair : Option (Nat × Nat) :=
      if first = str "root" then some (1, 1)
      else if first = str "meta" then some (1, 2)
      else parseFragment first
    match firstPair, rest.mapM parseFragment with
    | some p, some ps => some ⟨p :: ps⟩
    | _, _ => none

/-- Parse a string literal's text. -/
def parseCoord (s : String) : Option Coordinate := parseCoordL (str s)

/-- Fuel-driven helper for decimal rendering (structural recursion so that concrete
instances reduce inside the kernel); `natChars` supplies sufficient fuel. -/
def natCharsAux : Nat → Nat → List Nat
  | 0, n => [48 + n]
  | fuel + 1, n => if n < 10 then [48 + n] else natCharsAux fuel (n / 10) ++ [48 + n % 10]

/-- Decimal rendering of a row number (Rust's `{}` formatting of `u32`). -/
def natChars (n : Nat) : List Nat := natCharsAux n n

/-- src/coordinate.rs `col_to_string` convention: a column renders as the single
character `from_u32(col + 64)`; the row as decimal digits. -/
def showPair (p : Nat × Nat) : List Nat := (p.2 + 64) :: natChars p.1

/-- Modelled from the spec: `coord_show` (in `util.rs`, absent from src/) renders the
first pair as `root`/`meta` and every further pair as column letter then decimal row,
joined by `-`; it returns `None` (which `to_string` unwraps) on an empty coordinate. -/
def coordShow (pairs : List (Nat × Nat)) : Option (List Nat) :=
  match pairs with
  | [] => none
  | first :: rest =>
    let f0 := if first = (1, 1) then str "root"
              else if first = (1, 2) then str "meta"
              else showPair first
    some (joinDash (f0 :: rest.map showPair))

/-- src/coordinate.rs `Coordinate::to_string` = `coord_show(..).unwrap()`; the panic on
a `None` result is modelled as `none`. -/
def Coordinate.to_string (c : Coordinate) : Option (List Nat) := coordShow c.row_cols

/-! ### Association lists (the model of `std::collections::HashMap`)

`HashMap` is modelled as an association list with distinct keys; `ainsert`
replaces in place (like `HashMap::insert` / `get_mut`) and appends fresh keys at
the end.  Lookup agrees with `HashMap` for every key order, and the claims under
verification are stated up to key sets / counts, never up to iteration order. -/

/-- Replace the first binding of `k`, or append `(k, v)` if `k` is absent. -/
def ainsert [DecidableEq κ] (m : List (κ × ν)) (k : κ) (v : ν) : List (κ × ν) :=
  match m with
  | [] => [(k, v)]
  | (k0, v0) :: t => if k0 = k then (k, v) :: t else (k0, v0) :: ainsert t k v

/-- Value of the first binding of `k`. -/
def alookup [DecidableEq κ] (m : List (κ × ν)) (k : κ) : Option ν :=
  match m with
  | [] => none
  | (k0, v0) :: t => if k0 = k then some v0 else alookup t k

/-- The key list of an association list. -/
def akeys (m : List (κ × ν)) : List κ := m.map Prod.fst

/-- Insert a batch of bindings, left to right. -/
def insertList [DecidableEq κ] (m : List (κ × ν)) (kvs : List (κ × ν)) : List (κ × ν) :=
  kvs.foldl (fun acc kv => ainsert acc kv.1 kv.2) m

/-- Insert a default value for every key of `ks` that is absent, preserving present
bindings (the `if !contains_key { insert }` loop of `AddNestedGrid`). -/
def ensureAll [DecidableEq κ] (m : List (κ × ν)) (ks : List κ) (v : ν) : List (κ × ν) :=
  ks.foldl (fun acc k => if (alookup acc k).isSome then acc else ainsert acc k v) m

/-! ### Grammar, Style, Model -/

/-- Modelled from the spec: the `Style` struct (`style.rs` is absent from src/) is
opaque structured data; only its `display` flag is ever read by the view layer, so the
model keeps that single field. -/
structure Style where
  display : Bool
deriving DecidableEq, Repr

/-- Modelled from the spec: `Style::default()`. -/
def Style.default : Style := ⟨true⟩

/-- Modelled from the spec: the `Interactive` control variants
Button, Slider(value, min, max) and Toggle(checked) (`grammar.rs` is absent from src/). -/
inductive InteractiveKind where
  | Button : InteractiveKind
  | Slider : Nat → Nat → Nat → InteractiveKind
  | Toggle : Bool → InteractiveKind
deriving DecidableEq, Repr

/-- Modelled from the spec: the `Kind` enum of `grammar.rs` (absent from src/); the
variant list and payload shapes are those matched in src/model.rs and src/view.rs:
Text, Input, Interactive, Grid(child offsets), Lookup, Defn. -/
inductive Kind where
  | Text : String → Kind
  | Input : String → Kind
  | Interactive : String → InteractiveKind → Kind
  | Grid : List (Nat × Nat) → Kind
  | Lookup : String → Option String → Kind
  | Defn : String → Coordinate → List (String × Coordinate) → Kind
deriving DecidableEq, Repr

/-- Modelled from the spec: `Grammar { name, style, kind }` (`grammar.rs` absent from src/). -/
structure Grammar where
  name : String
  style : Style
  kind : Kind
deriving DecidableEq, Repr

/-- Modelled from the spec: `Grammar::default()` — the fresh default (Text, empty)
grammar installed for newly created cells. -/
def Grammar.default : Grammar := ⟨"", Style.default, Kind.Text ""⟩

/-- Modelled from the spec: the row-major 1-based `rows × cols` child-offset list a
nested grid declares. -/
def gridOffsets (rows cols : Nat) : List (Nat × Nat) :=
  (List.range rows).flatMap (fun i => (List.range cols).map (fun j => (i + 1, j + 1)))

/-- Modelled from the spec: `Grammar::as_grid(rows, cols)` — a `Grid` grammar declaring
the row-major `rows × cols` offsets. -/
def Grammar.as_grid (rows cols : Nat) : Grammar :=
  ⟨"", Style.default, Kind.Grid (gridOffsets rows cols)⟩

/-- Modelled from the spec: `Grammar::suggestion(name, content)` — a suggestion-source
cell of the meta grid, an editable Input cell carrying the suggestion text. -/
def Grammar.suggestion (name content : String) : Grammar :=
  ⟨name, Style.default, Kind.Input content⟩

/-- The state of src/model.rs `Model` that the structural operations read or write.
The platform-service fields (console, reader, link, tasks, tabs, side menus) take no
part in any structural operation and are omitted.  Pixel sizes are `f64` in the
source; the only values that arise are 30.0, 90.0 and small-integer multiples of
them, all exactly representable, so sizes are modelled as `Nat`. -/
structure Model where
  root : Grammar
  meta : Grammar
  view_root : Coordinate
  grammars : List (Coordinate × Grammar)
  active_cell : Option Coordinate
  suggestions : List Coordinate
  col_widths : List (Col × Nat)
  row_heights : List (Row × Nat)
deriving DecidableEq, Repr

/-- src/model.rs `Model::query_col`: all keys other than root/meta whose `full_col`
equals the given column. -/
def Model.query_col (m : Model) (coord_col : Col) : List Coordinate :=
  (akeys m.grammars).filter
    (fun k => if k.row_cols.length = 1 then false else k.full_col = some coord_col)

/-- src/model.rs `Model::query_row`: all keys other than root/meta whose `full_row`
equals the given row. -/
def Model.query_row (m : Model) (coord_row : Row) : List Coordinate :=
  (akeys m.grammars).filter
    (fun k => if k.row_cols.length = 1 then false else k.full_row = some coord_row)

/-- src/model.rs `create()`: the root grammar, a 3×2 grid. -/
def rootGrammar : Grammar :=
  ⟨"root", Style.default, Kind.Grid [(1, 1), (2, 1), (3, 1), (1, 2), (2, 2), (3, 2)]⟩

/-- src/model.rs `create()`: the meta grammar. -/
def metaGrammar : Grammar :=
  ⟨"meta", Style.default, Kind.Grid [(1, 1), (2, 1)]⟩

/-- The coordinate `root`. -/
def cRoot : Coordinate := ⟨[(1, 1)]⟩

/-- The coordinate `meta`. -/
def cMeta : Coordinate := ⟨[(1, 2)]⟩

/-- Modelled from the spec: `apply_definition_grammar(&mut m, coord!("meta-A3"))`
(in `utils`, absent from src/) installs the hand-authored meta-definitions subtree at
`meta-A3`; the model inserts a minimal `Defn` grammar there. -/
def applyDefinitionGrammar (g : List (Coordinate × Grammar))
    (c : Coordinate) : List (Coordinate × Grammar) :=
  ainsert g c ⟨"defn", Style.default, Kind.Defn "defn" c []⟩

/-- src/model.rs `create()`: the seed session. -/
def seedModel : Model :=
  { root := rootGrammar
    meta := metaGrammar
    view_root := cRoot
    grammars := applyDefinitionGrammar
      [(cRoot, rootGrammar),
       (⟨[(1, 1), (1, 1)]⟩, Grammar.default),
       (⟨[(1, 1), (2, 1)]⟩, Grammar.default),
       (⟨[(1, 1), (3, 1)]⟩, Grammar.default),
       (⟨[(1, 1), (1, 2)]⟩, Grammar.default),
       (⟨[(1, 1), (2, 2)]⟩, Grammar.default),
       (⟨[(1, 1), (3, 2)]⟩, Grammar.default),
       (cMeta, metaGrammar),
       (⟨[(1, 2), (1, 1)]⟩, Grammar.suggestion "js grammar" "This is js"),
       (⟨[(1, 2), (2, 1)]⟩, Grammar.suggestion "java grammar" "This is java")]
      ⟨[(1, 2), (3, 1)]⟩
    active_cell := some ⟨[(1, 1), (1, 1)]⟩
    suggestions := [⟨[(1, 2), (1, 1)]⟩, ⟨[(1, 2), (2, 1)]⟩, ⟨[(1, 2), (3, 1)]⟩]
    col_widths := [(⟨cRoot, 1⟩, 90), (⟨cRoot, 2⟩, 90)]
    row_heights := [(⟨cRoot, 1⟩, 30), (⟨cRoot, 2⟩, 30), (⟨cRoot, 3⟩, 30)] }

/-! ### The structural operations of src/model.rs `update` -/

/-- src/model.rs `Action::ChangeInput(coord, new_value)`: if the cell currently holds a
`Kind::Text` grammar its content is replaced; every other variant (in particular
`Kind::Input`) falls into the `_ => ()` arm and nothing changes. -/
def Model.changeInput (m : Model) (coord : Coordinate) (new_value : String) : Model :=
  match alookup m.grammars coord with
  | some g =>
    match g.kind with
    | Kind.Text _ =>
      { m with grammars := ainsert m.grammars coord { g with kind := Kind.Text new_value } }
    | _ => m
  | none => m

/-- src/model.rs `Action::AddNestedGrid(coord, (rows, cols))`.  Panics (modelled as
`none`) when: `rows` or `cols` is zero (`non_zero_u32_tuple` unwraps), when `coord` is
empty (the child loop calls `full_row` on a length-1 child), or when `coord` is a
length-1 root/meta coordinate (`resize` calls `coord.full_row()` at the end).  The
source's single child loop touches the three independent maps `grammars`,
`row_heights`, `col_widths`; the model applies the same updates map by map. -/
def Model.addNestedGrid (m : Model) (coord : Coordinate) (rows cols : Nat) : Option Model :=
  if rows = 0 ∨ cols = 0 then none
  else if coord.row_cols.length = 0 then none
  else
    match coord.parent with
    | none => none
    | some p =>
      let offsets := gridOffsets rows cols
      let grammar := Grammar.as_grid rows cols
      -- children get Grammar::default
      let g1 := insertList m.grammars
        (offsets.map (fun off => (Coordinate.child_of coord off, Grammar.default)))
      -- the parent's kind is overwritten wholesale with the new grid's kind
      let g2 := match alookup g1 p with
        | some pg => ainsert g1 p { pg with kind := grammar.kind }
        | none => g1
      -- the nested cell itself stores the new grid grammar
      let g3 := ainsert g2 coord grammar
      -- default row heights / col widths for the children, only where absent
      let rh1 := ensureAll m.row_heights (offsets.map (fun off => (⟨coord, off.1⟩ : Row))) 30
      let cw1 := ensureAll m.col_widths (offsets.map (fun off => (⟨coord, off.2⟩ : Col))) 90
      -- `resize(self, coord, rows*30.0, cols*90.0)` sets the nested cell's own sizes
      let rh2 := ainsert rh1 ⟨p, coord.row⟩ (rows * 30)
      let cw2 := ainsert cw1 ⟨p, coord.col⟩ (cols * 90)
      some { m with
        grammars := g3
        row_heights := rh2
        col_widths := cw2
        active_cell := (offsets.head?).map (fun sc => Coordinate.child_of coord sc) }

/-- src/model.rs `Action::InsertCol`, the walk to the rightmost occupied coordinate of
the active cell's row: follow `neighbor_right` while the key is in the map.  Each step
consumes a distinct key, so `#keys + 1` fuel always suffices. -/
def walkRight (g : List (Coordinate × Grammar)) : Nat → Coordinate → Coordinate
  | 0, c => c
  | fuel + 1, c =>
    match c.neighbor_right with
    | none => c
    | some r => if (alookup g r).isSome then walkRight g fuel r else c

/-- src/model.rs `Action::InsertRow`, the walk to the bottom-most occupied coordinate of
the active cell's column. -/
def walkBelow (g : List (Coordinate × Grammar)) : Nat → Coordinate → Coordinate
  | 0, c => c
  | fuel + 1, c =>
    match c.neighbor_below with
    | none => c
    | some r => if (alookup g r).isSome then walkBelow g fuel r else c

/-- src/model.rs `Action::InsertCol`.  With no active cell nothing happens.  With an
active length-1 (or empty) cell the source panics — `right_most_coord.full_col()`
hits its `expect` — modelled as `none`.  When the active cell's parent is not stored
as a `Grid` the `if let` falls through and nothing changes. -/
def Model.insertCol (m : Model) : Option Model :=
  match m.active_cell with
  | none => some m
  | some coord =>
    let right_most_coord := walkRight m.grammars (m.grammars.length + 1) coord
    match right_most_coord.full_col with
    | none => none
    | some cc =>
      let right_most_col_coords := m.query_col cc
      let new_col_coords := right_most_col_coords.map (fun c => (c.row, c.col + 1))
      match coord.parent with
      | none => none
      | some p =>
        match alookup m.grammars p with
        | some pg =>
          match pg.kind with
          | Kind.Grid sub_coords =>
            let g1 := insertList m.grammars
              (new_col_coords.map (fun c => (Coordinate.child_of p c, Grammar.default)))
            some { m with grammars :=
              (ainsert g1 p ⟨pg.name, pg.style, Kind.Grid (sub_coords ++ new_col_coords)⟩) }
          | _ => some m
        | none => some m

/-- src/model.rs `Action::InsertRow`, symmetric to `insertCol` along rows. -/
def Model.insertRow (m : Model) : Option Model :=
  match m.active_cell with
  | none => some m
  | some coord =>
    let bottom_most_coord := walkBelow m.grammars (m.grammars.length + 1) coord
    match bottom_most_coord.full_row with
    | none => none
    | some rr =>
      let bottom_most_row_coords := m.query_row rr
      let new_row_coords := bottom_most_row_coords.map (fun c => (c.row + 1, c.col))
      match coord.parent with
      | none => none
      | some p =>
        match alookup m.grammars p with
        | some pg =>
          match pg.kind with
          | Kind.Grid sub_coords =>
            let g1 := insertList m.grammars
              (new_row_coords.map (fun c => (Coordinate.child_of p c, Grammar.default)))
            some { m with grammars :=
              (ainsert g1 p ⟨pg.name, pg.style, Kind.Grid (sub_coords ++ new_row_coords)⟩) }
          | _ => some m
        | none => some m

/-- The map-consistency invariant of the spec's fuzz target: every key other than the
length-1 root/meta coordinates has a parent whose map entry is Grid-typed and whose
declared offsets include the key's last (row, column) pair. -/
def consistentAt (m : Model) (k : Coordinate) : Bool :=
  if k.row_cols.length = 1 then true
  else
    match k.parent with
    | none => false
    | some p =>
      match alookup m.grammars p with
      | some pg =>
        match pg.kind with
        | Kind.Grid subs => decide ((k.row, k.col) ∈ subs)
        | _ => false
      | none => false

/-- The map-consistency invariant over the whole map. -/
def mapConsistent (m : Model) : Bool :=
  (akeys m.grammars).all (fun k => consistentAt m k)

/-- A canonical decimal digit run: nonempty, all digits, leading digit not `0`. -/
def canonDigits (ds : List Nat) : Bool :=
  match ds with
  | [] => false
  | d :: t => isDigitCode d && decide (d ≠ 48) && t.all isDigitCode

/-- A canonical coordinate fragment: one upper-case letter then a canonical digit run. -/
def canonFrag (f : List Nat) : Bool :=
  match f with
  | [] => false
  | l :: ds => isUpperCode l && canonDigits ds

/-- A canonical coordinate text: a root/meta token followed by canonical fragments. -/
def canonText (l : List Nat) : Bool :=
  match splitDash l with
  | [] => false
  | first :: rest =>
    (decide (first = str "root") || decide (first = str "meta")) && rest.all canonFrag

/-- The coordinate `root-A1`. -/
def cRootA1 : Coordinate := ⟨[(1, 1), (1, 1)]⟩

/-- The coordinate `root-A2`. -/
def cRootA2 : Coordinate := ⟨[(1, 1), (2, 1)]⟩

/-- A session whose grammar map stores an editable `Input` cell at root-A1. -/
def c9Model : Model :=
  { root := rootGrammar
    meta := metaGrammar
    view_root := cRoot
    grammars := [(cRoot, rootGrammar),
      (cRootA1, ⟨"cell", Style.default, Kind.Input "old"⟩)]
    active_cell := some cRootA1
    suggestions := []
    col_widths := []
    row_heights := [] }

/-- A session whose root grid has a column gap: root-B2 is populated but root-B1 is
not, and the active cell is root-A1.  Its declared offsets match its keys. -/
def gapModel : Model :=
  { root := rootGrammar
    meta := metaGrammar
    view_root := cRoot
    grammars := [(cRoot, ⟨"root", Style.default, Kind.Grid [(1, 1), (2, 1), (2, 2)]⟩),
      (cRootA1, Grammar.default),
      (cRootA2, Grammar.default),
      (⟨[(1, 1), (2, 2)]⟩, ⟨"precious", Style.default, Kind.Text "precious"⟩)]
    active_cell := some cRootA1
    suggestions := []
    col_widths := []
    row_heights := [] }

/-! ### Association-list lemmas -/

section AListLemmas

variable {κ ν : Type} [DecidableEq κ]

theorem alookup_ainsert_self (m : List (κ × ν)) (k : κ) (v : ν) :
    alookup (ainsert m k v) k = some v := by
  induction m with
  | nil => simp [ainsert, alookup]
  | cons kv t ih =>
    obtain ⟨k0, v0⟩ := kv
    by_cases h : k0 = k
    · simp [ainsert, h, alookup]
    · simp [ainsert, h, alookup, ih]

theorem alookup_ainsert_ne (m : List (κ × ν)) (k k' : κ) (v : ν) (h : k' ≠ k) :
    alookup (ainsert m k v) k' = alookup m k' := by
  have hkk : ¬(k = k') := fun hh => h hh.symm
  induction m with
  | nil =>
    simp only [ainsert, alookup]
    rw [if_neg hkk]
  | cons kv t ih =>
    obtain ⟨k0, v0⟩ := kv
    by_cases h0 : k0 = k
    · subst h0
      simp only [ainsert, if_pos rfl, alookup]
      rw [if_neg hkk, if_neg hkk]
    · simp only [ainsert, if_neg h0, alookup]
      by_cases h1 : k0 = k'
      · rw [if_pos h1, if_pos h1]
      · rw [if_neg h1, if_neg h1, ih]

theorem length_ainsert_present (m : List (κ × ν)) (k : κ) (v : ν)
    (h : (alookup m k).isSome) : (ainsert m k v).length = m.length := by
  induction m with
  | nil => simp [alookup] at h
  | cons kv t ih =>
    obtain ⟨k0, v0⟩ := kv
    by_cases h0 : k0 = k
    · simp [ainsert, h0]
    · simp only [alookup, if_neg h0] at h
      simp [ainsert, h0, ih h]

theorem length_ainsert_absent (m : List (κ × ν)) (k : κ) (v : ν)
    (h : alookup m k = none) : (ainsert m k v).length = m.length + 1 := by
  induction m with
  | nil => simp [ainsert]
  | cons kv t ih =>
    obtain ⟨k0, v0⟩ := kv
    by_cases h0 : k0 = k
    · simp only [alookup, if_pos h0] at h
      exact absurd h (by simp)
    · simp only [alookup, if_neg h0] at h
      simp [ainsert, h0, ih h]

theorem isSome_alookup_of_mem_akeys (m : List (κ × ν)) (k : κ) (h : k ∈ akeys m) :
    (alookup m k).isSome := by
  induction m with
  | nil => simp [akeys] at h
  | cons kv t ih =>
    obtain ⟨k0, v0⟩ := kv
    by_cases h0 : k0 = k
    · simp [alookup, h0]
    · simp only [akeys, List.map_cons, List.mem_cons] at h
      rcases h with h | h
      · exact absurd h.symm h0
      · simpa [alookup, h0] using ih (by simpa [akeys] using h)

theorem mem_akeys_of_alookup (m : List (κ × ν)) (k : κ) (h : (alookup m k).isSome) :
    k ∈ akeys m := by
  induction m with
  | nil => simp [alookup] at h
  | cons kv t ih =>
    obtain ⟨k0, v0⟩ := kv
    by_cases h0 : k0 = k
    · simp [akeys, h0]
    · simp only [alookup, if_neg h0] at h
      simpa [akeys] using Or.inr (by simpa [akeys] using ih h)

theorem insertList_cons (m : List (κ × ν)) (kv : κ × ν) (t : List (κ × ν)) :
    insertList m (kv :: t) = insertList (ainsert m kv.1 kv.2) t := rfl

theorem alookup_insertList_not_mem (kvs : List (κ × ν)) (m : List (κ × ν)) (k : κ)
    (h : k ∉ kvs.map Prod.fst) :
    alookup (insertList m kvs) k = alookup m k := by
  induction kvs generalizing m with
  | nil => rfl
  | cons kv t ih =>
    simp only [List.map_cons, List.mem_cons] at h
    push_neg at h
    rw [insertList_cons, ih _ h.2, alookup_ainsert_ne _ _ _ _ h.1]

theorem alookup_insertList_mem (kvs : List (κ × ν)) (m : List (κ × ν)) (k : κ) (v : ν)
    (hnd : (kvs.map Prod.fst).Nodup) (h : (k, v) ∈ kvs) :
    alookup (insertList m kvs) k = some v := by
  induction kvs generalizing m with
  | nil => simp at h
  | cons kv t ih =>
    simp only [List.map_cons, List.nodup_cons] at hnd
    rcases List.mem_cons.mp h with h | h
    · subst h
      rw [insertList_cons, alookup_insertList_not_mem _ _ _ hnd.1]
      exact alookup_ainsert_self _ _ _
    · rw [insertList_cons]
      exact ih _ hnd.2 h

theorem length_insertList_fresh (kvs : List (κ × ν)) (m : List (κ × ν))
    (hnd : (kvs.map Prod.fst).Nodup) (hfresh : ∀ kv ∈ kvs, alookup m kv.1 = none) :
    (insertList m kvs).length = m.length + kvs.length := by
  induction kvs generalizing m with
  | nil => rfl
  | cons kv t ih =>
    simp only [List.map_cons, List.nodup_cons] at hnd
    have hfresh2 : ∀ kv' ∈ t, alookup (ainsert m kv.1 kv.2) kv'.1 = none := by
      intro kv' h'
      have hne : kv'.1 ≠ kv.1 := by
        intro he
        have hmm : kv'.1 ∈ t.map Prod.fst := List.mem_map_of_mem Prod.fst h'
        rw [he] at hmm
        exact hnd.1 hmm
      rw [alookup_ainsert_ne _ _ _ _ hne]
      exact hfresh kv' (List.mem_cons_of_mem _ h')
    rw [insertList_cons, ih _ hnd.2 hfresh2,
      length_ainsert_absent _ _ _ (hfresh kv (List.mem_cons_self _ _))]
    simp only [List.length_cons]
    omega

theorem ensureAll_cons (m : List (κ × ν)) (k : κ) (t : List κ) (v : ν) :
    ensureAll m (k :: t) v =
      ensureAll (if (alookup m k).isSome then m else ainsert m k v) t v := rfl

theorem alookup_ensureAll_present (ks : List κ) (m : List (κ × ν)) (k : κ) (v v0 : ν)
    (h : alookup m k = some v) : alookup (ensureAll m ks v0) k = some v := by
  induction ks generalizing m with
  | nil => exact h
  | cons k0 t ih =>
    rw [ensureAll_cons]
    by_cases hk : (alookup m k0).isSome
    · rw [if_pos hk]; exact ih _ h
    · rw [if_neg hk]
      refine ih _ ?_
      have hne : k ≠ k0 := by
        intro he; subst he; rw [h] at hk; simp at hk
      rw [alookup_ainsert_ne _ _ _ _ hne]; exact h

theorem alookup_ensureAll_absent (ks : List κ) (m : List (κ × ν)) (k : κ) (v0 : ν)
    (h : alookup m k = none) (hk : k ∈ ks) : alookup (ensureAll m ks v0) k = some v0 := by
  induction ks generalizing m with
  | nil => simp at hk
  | cons k0 t ih =>
    rw [ensureAll_cons]
    by_cases he : k0 = k
    · subst he
      rw [if_neg (by rw [h]; simp)]
      exact alookup_ensureAll_present _ _ _ _ _ (alookup_ainsert_self _ _ _)
    · rcases List.mem_cons.mp hk with hk0 | hk0
      · exact absurd hk0.symm he
      · by_cases hs : (alookup m k0).isSome
        · rw [if_pos hs]; exact ih _ h hk0
        · rw [if_neg hs]
          refine ih _ ?_ hk0
          rw [alookup_ainsert_ne _ _ _ _ (fun hh => he hh.symm)]; exact h

end AListLemmas

/-! ### Coordinate shape lemmas -/

theorem Coordinate.row_cols_eq_dropLast_concat (c : Coordinate) (last : Nat × Nat)
    (h : c.row_cols.getLast? = some last) :
    c.row_cols = c.row_cols.dropLast ++ [last] := by
  have hne : c.row_cols ≠ [] := by intro h0; rw [h0] at h; simp at h
  have h2 := List.dropLast_append_getLast hne
  rw [List.getLast?_eq_getLast _ hne, Option.some_inj] at h
  rw [h] at h2
  exact h2.symm

theorem Coordinate.length_child_of (p : Coordinate) (rc : Nat × Nat) :
    (Coordinate.child_of p rc).row_cols.length = p.row_cols.length + 1 := by
  simp [Coordinate.child_of]

theorem Coordinate.parent_child_of (p : Coordinate) (rc : Nat × Nat)
    (hne : p.row_cols ≠ []) :
    (Coordinate.child_of p rc).parent = some p := by
  obtain ⟨rcs⟩ := p
  have hlen0 : rcs.length ≠ 0 := by
    intro h; exact hne (by simpa using List.length_eq_zero.mp h)
  have hcond : ¬(((⟨rcs⟩ : Coordinate).child_of rc).row_cols.length = 1) := by
    simp only [Coordinate.child_of, List.length_append, List.length_cons, List.length_nil]
    omega
  unfold Coordinate.parent
  rw [if_neg hcond]
  simp [Coordinate.child_of]

theorem Coordinate.child_of_inj (p : Coordinate) (rc1 rc2 : Nat × Nat)
    (h : Coordinate.child_of p rc1 = Coordinate.child_of p rc2) : rc1 = rc2 := by
  simp [Coordinate.child_of] at h
  exact h

/-- Unpack a successful `full_col`: the coordinate is nonempty, its parent is the
column's parent, its column is the column's index, and it is exactly that parent's
child at (its own row, the column index). -/
theorem Coordinate.full_col_elim (c : Coordinate) (cc : Col) (h : c.full_col = some cc) :
    c.row_cols ≠ [] ∧ c.parent = some cc.parentc ∧ c.col = cc.idx ∧
      c = Coordinate.child_of cc.parentc (c.row, cc.idx) := by
  unfold Coordinate.full_col at h
  split at h
  case h_2 => exact absurd h (by simp)
  case h_1 p last hp hl =>
    obtain ⟨lr, lc⟩ := last
    have hcc : cc = ⟨p, lc⟩ := (Option.some_inj.mp h).symm
    have hne : c.row_cols ≠ [] := by intro h0; rw [h0] at hl; simp at hl
    have hrow : c.row = lr := by simp [Coordinate.row, hl]
    have hcol : c.col = lc := by simp [Coordinate.col, hl]
    have hdl : p = (⟨c.row_cols.dropLast⟩ : Coordinate) := by
      unfold Coordinate.parent at hp
      split at hp
      · exact absurd hp (by simp)
      · exact (Option.some_inj.mp hp).symm
    have hrep := Coordinate.row_cols_eq_dropLast_concat c (lr, lc) hl
    subst hcc
    refine ⟨hne, hp, hcol, ?_⟩
    rw [hrow]
    obtain ⟨rcs⟩ := c
    simp only [Coordinate.child_of, hdl]
    exact congrArg Coordinate.mk (by simpa using hrep)

/-- Unpack a successful `full_row`, symmetrically. -/
theorem Coordinate.full_row_elim (c : Coordinate) (rr : Row) (h : c.full_row = some rr) :
    c.row_cols ≠ [] ∧ c.parent = some rr.parentc ∧ c.row = rr.idx ∧
      c = Coordinate.child_of rr.parentc (rr.idx, c.col) := by
  unfold Coordinate.full_row at h
  split at h
  case h_2 => exact absurd h (by simp)
  case h_1 p last hp hl =>
    obtain ⟨lr, lc⟩ := last
    have hrr : rr = ⟨p, lr⟩ := (Option.some_inj.mp h).symm
    have hne : c.row_cols ≠ [] := by intro h0; rw [h0] at hl; simp at hl
    have hrow : c.row = lr := by simp [Coordinate.row, hl]
    have hcol : c.col = lc := by simp [Coordinate.col, hl]
    have hdl : p = (⟨c.row_cols.dropLast⟩ : Coordinate) := by
      unfold Coordinate.parent at hp
      split at hp
      · exact absurd hp (by simp)
      · exact (Option.some_inj.mp hp).symm
    have hrep := Coordinate.row_cols_eq_dropLast_concat c (lr, lc) hl
    subst hrr
    refine ⟨hne, hp, hrow, ?_⟩
    rw [hcol]
    obtain ⟨rcs⟩ := c
    simp only [Coordinate.child_of, hdl]
    exact congrArg Coordinate.mk (by simpa using hrep)

/-- Unpack membership of `query_col`. -/
theorem mem_query_col_elim (m : Model) (cc : Col) (c : Coordinate)
    (h : c ∈ m.query_col cc) :
    c ∈ akeys m.grammars ∧ c.row_cols ≠ [] ∧ c.parent = some cc.parentc ∧
      c.col = cc.idx ∧ c = Coordinate.child_of cc.parentc (c.row, cc.idx) := by
  simp only [Model.query_col, List.mem_filter] at h
  obtain ⟨hmem, hcond⟩ := h
  by_cases h1 : c.row_cols.length = 1
  · rw [if_pos h1] at hcond
    exact absurd hcond (by simp)
  · rw [if_neg h1, decide_eq_true_eq] at hcond
    obtain ⟨hne, hp, hcol, hrep⟩ := Coordinate.full_col_elim c cc hcond
    exact ⟨hmem, hne, hp, hcol, hrep⟩

/-- Unpack membership of `query_row`. -/
theorem mem_query_row_elim (m : Model) (rr : Row) (c : Coordinate)
    (h : c ∈ m.query_row rr) :
    c ∈ akeys m.grammars ∧ c.row_cols ≠ [] ∧ c.parent = some rr.parentc ∧
      c.row = rr.idx ∧ c = Coordinate.child_of rr.parentc (rr.idx, c.col) := by
  simp only [Model.query_row, List.mem_filter] at h
  obtain ⟨hmem, hcond⟩ := h
  by_cases h1 : c.row_cols.length = 1
  · rw [if_pos h1] at hcond
    exact absurd hcond (by simp)
  · rw [if_neg h1, decide_eq_true_eq] at hcond
    obtain ⟨hne, hp, hrow, hrep⟩ := Coordinate.full_row_elim c rr hcond
    exact ⟨hmem, hne, hp, hrow, hrep⟩

/-! ### Walk lemmas: the rightmost / bottom-most search preserves the ancestry -/

theorem walkRight_shape (g : List (Coordinate × Grammar)) :
    ∀ (fuel : Nat) (c : Coordinate), c.row_cols ≠ [] →
      (walkRight g fuel c).row_cols ≠ [] ∧
      (walkRight g fuel c).row_cols.dropLast = c.row_cols.dropLast ∧
      (walkRight g fuel c).row_cols.length = c.row_cols.length := by
  intro fuel
  induction fuel with
  | zero => intro c hne; exact ⟨hne, rfl, rfl⟩
  | succ n ih =>
    intro c hne
    rcases hl : c.row_cols.getLast? with _ | last
    · exact absurd (List.getLast?_eq_none_iff.mp hl) hne
    · have hnr : c.neighbor_right = some ⟨c.row_cols.dropLast ++ [(last.1, last.2 + 1)]⟩ := by
        unfold Coordinate.neighbor_right
        rw [hl]
      have hstep : walkRight g (n + 1) c =
          (if (alookup g (⟨c.row_cols.dropLast ++ [(last.1, last.2 + 1)]⟩ :
              Coordinate)).isSome
            then walkRight g n ⟨c.row_cols.dropLast ++ [(last.1, last.2 + 1)]⟩ else c) := by
        show (match c.neighbor_right with
          | none => c
          | some r => if (alookup g r).isSome then walkRight g n r else c) = _
        rw [hnr]
      rw [hstep]
      by_cases hmem : (alookup g (⟨c.row_cols.dropLast ++ [(last.1, last.2 + 1)]⟩ :
          Coordinate)).isSome
      · rw [if_pos hmem]
        have hne2 : (⟨c.row_cols.dropLast ++ [(last.1, last.2 + 1)]⟩ :
            Coordinate).row_cols ≠ [] := by simp
        obtain ⟨a, b, d⟩ := ih ⟨c.row_cols.dropLast ++ [(last.1, last.2 + 1)]⟩ hne2
        refine ⟨a, ?_, ?_⟩
        · rw [b]
          simp
        · rw [d]
          simp only [List.length_append, List.length_dropLast, List.length_cons,
            List.length_nil]
          have : c.row_cols.length ≠ 0 := fun h => hne (List.length_eq_zero.mp h)
          omega
      · rw [if_neg hmem]
        exact ⟨hne, rfl, rfl⟩

theorem walkBelow_shape (g : List (Coordinate × Grammar)) :
    ∀ (fuel : Nat) (c : Coordinate), c.row_cols ≠ [] →
      (walkBelow g fuel c).row_cols ≠ [] ∧
      (walkBelow g fuel c).row_cols.dropLast = c.row_cols.dropLast ∧
      (walkBelow g fuel c).row_cols.length = c.row_cols.length := by
  intro fuel
  induction fuel with
  | zero => intro c hne; exact ⟨hne, rfl, rfl⟩
  | succ n ih =>
    intro c hne
    rcases hl : c.row_cols.getLast? with _ | last
    · exact absurd (List.getLast?_eq_none_iff.mp hl) hne
    · have hnr : c.neighbor_below = some ⟨c.row_cols.dropLast ++ [(last.1 + 1, last.2)]⟩ := by
        unfold Coordinate.neighbor_below
        rw [hl]
      have hstep : walkBelow g (n + 1) c =
          (if (alookup g (⟨c.row_cols.dropLast ++ [(last.1 + 1, last.2)]⟩ :
              Coordinate)).isSome
            then walkBelow g n ⟨c.row_cols.dropLast ++ [(last.1 + 1, last.2)]⟩ else c) := by
        show (match c.neighbor_below with
          | none => c
          | some r => if (alookup g r).isSome then walkBelow g n r else c) = _
        rw [hnr]
      rw [hstep]
      by_cases hmem : (alookup g (⟨c.row_cols.dropLast ++ [(last.1 + 1, last.2)]⟩ :
          Coordinate)).isSome
      · rw [if_pos hmem]
        have hne2 : (⟨c.row_cols.dropLast ++ [(last.1 + 1, last.2)]⟩ :
            Coordinate).row_cols ≠ [] := by simp
        obtain ⟨a, b, d⟩ := ih ⟨c.row_cols.dropLast ++ [(last.1 + 1, last.2)]⟩ hne2
        refine ⟨a, ?_, ?_⟩
        · rw [b]
          simp
        · rw [d]
          simp only [List.length_append, List.length_dropLast, List.length_cons,
            List.length_nil]
          have : c.row_cols.length ≠ 0 := fun h => hne (List.length_eq_zero.mp h)
          omega
      · rw [if_neg hmem]
        exact ⟨hne, rfl, rfl⟩

/-- The rightmost walk keeps the parent, and its `full_col` succeeds with that parent. -/
theorem walkRight_full_col (g : List (Coordinate × Grammar)) (fuel : Nat)
    (c p : Coordinate) (hne : c.row_cols ≠ []) (hp : c.parent = some p) :
    (walkRight g fuel c).full_col = some ⟨p, (walkRight g fuel c).col⟩ := by
  obtain ⟨hne2, hdl, hlen⟩ := walkRight_shape g fuel c hne
  have h1 : ¬(c.row_cols.length = 1) := by
    intro h1
    unfold Coordinate.parent at hp
    rw [if_pos h1] at hp
    exact absurd hp (by simp)
  have hpv : p = (⟨c.row_cols.dropLast⟩ : Coordinate) := by
    unfold Coordinate.parent at hp
    rw [if_neg h1] at hp
    exact (Option.some_inj.mp hp).symm
  have hp2 : (walkRight g fuel c).parent = some p := by
    unfold Coordinate.parent
    rw [if_neg (by rw [hlen]; exact h1), hdl, hpv]
  rcases hl2 : (walkRight g fuel c).row_cols.getLast? with _ | last2
  · exact absurd (List.getLast?_eq_none_iff.mp hl2) hne2
  · unfold Coordinate.full_col
    rw [hp2, hl2]
    have : (walkRight g fuel c).col = last2.2 := by simp [Coordinate.col, hl2]
    rw [this]

/-- The bottom-most walk keeps the parent, and its `full_row` succeeds with that parent. -/
theorem walkBelow_full_row (g : List (Coordinate × Grammar)) (fuel : Nat)
    (c p : Coordinate) (hne : c.row_cols ≠ []) (hp : c.parent = some p) :
    (walkBelow g fuel c).full_row = some ⟨p, (walkBelow g fuel c).row⟩ := by
  obtain ⟨hne2, hdl, hlen⟩ := walkBelow_shape g fuel c hne
  have h1 : ¬(c.row_cols.length = 1) := by
    intro h1
    unfold Coordinate.parent at hp
    rw [if_pos h1] at hp
    exact absurd hp (by simp)
  have hpv : p = (⟨c.row_cols.dropLast⟩ : Coordinate) := by
    unfold Coordinate.parent at hp
    rw [if_neg h1] at hp
    exact (Option.some_inj.mp hp).symm
  have hp2 : (walkBelow g fuel c).parent = some p := by
    unfold Coordinate.parent
    rw [if_neg (by rw [hlen]; exact h1), hdl, hpv]
  rcases hl2 : (walkBelow g fuel c).row_cols.getLast? with _ | last2
  · exact absurd (List.getLast?_eq_none_iff.mp hl2) hne2
  · unfold Coordinate.full_row
    rw [hp2, hl2]
    have : (walkBelow g fuel c).row = last2.1 := by simp [Coordinate.row, hl2]
    rw [this]

theorem Coordinate.child_of_ne_parent (base : Coordinate) (rc : Nat × Nat) :
    Coordinate.child_of base rc ≠ base := by
  intro h
  have h2 := congrArg (fun c : Coordinate => c.row_cols.length) h
  simp [Coordinate.child_of] at h2

theorem insertCol_core (m : Model) (coord p : Coordinate) (pg : Grammar)
    (subs : List (Nat × Nat))
    (hact : m.active_cell = some coord)
    (hne : coord.row_cols ≠ [])
    (hp : coord.parent = some p)
    (hpg : alookup m.grammars p = some pg)
    (hkind : pg.kind = Kind.Grid subs)
    (hnodup : (akeys m.grammars).Nodup)
    (hfresh : ∀ c ∈ m.query_col ⟨p,
        (walkRight m.grammars (m.grammars.length + 1) coord).col⟩,
      alookup m.grammars (Coordinate.child_of p (c.row, c.col + 1)) = none) :
    ∃ m', m.insertCol = some m' ∧
      (∀ c ∈ m.query_col ⟨p, (walkRight m.grammars (m.grammars.length + 1) coord).col⟩,
        alookup m'.grammars (Coordinate.child_of p (c.row, c.col + 1)) =
          some Grammar.default) ∧
      alookup m'.grammars p = some ⟨pg.name, pg.style, Kind.Grid (subs ++
        (m.query_col ⟨p, (walkRight m.grammars (m.grammars.length + 1) coord).col⟩).map
          (fun c => (c.row, c.col + 1)))⟩ ∧
      m'.grammars.length = m.grammars.length +
        (m.query_col ⟨p,
          (walkRight m.grammars (m.grammars.length + 1) coord).col⟩).length ∧
      (∀ k v, alookup m.grammars k = some v → k ≠ p → alookup m'.grammars k = some v) ∧
      m'.active_cell = m.active_cell ∧
      m'.row_heights = m.row_heights ∧ m'.col_widths = m.col_widths := by
  have hfc := walkRight_full_col m.grammars (m.grammars.length + 1) coord p hne hp
  have hkeys : (((m.query_col ⟨p,
        (walkRight m.grammars (m.grammars.length + 1) coord).col⟩).map
          (fun c => (c.row, c.col + 1))).map
            (fun rc => (Coordinate.child_of p rc, Grammar.default))).map Prod.fst =
      (m.query_col ⟨p, (walkRight m.grammars (m.grammars.length + 1) coord).col⟩).map
        (fun c => Coordinate.child_of p (c.row, c.col + 1)) := by
    simp [List.map_map, Function.comp]
  have hQn : (m.query_col ⟨p,
      (walkRight m.grammars (m.grammars.length + 1) coord).col⟩).Nodup :=
    List.Nodup.filter _ hnodup
  have hinj : ∀ c1 ∈ m.query_col ⟨p,
        (walkRight m.grammars (m.grammars.length + 1) coord).col⟩,
      ∀ c2 ∈ m.query_col ⟨p,
        (walkRight m.grammars (m.grammars.length + 1) coord).col⟩,
      Coordinate.child_of p (c1.row, c1.col + 1) =
        Coordinate.child_of p (c2.row, c2.col + 1) → c1 = c2 := by
    intro c1 h1 c2 h2 he
    obtain ⟨-, -, -, hcol1, hrep1⟩ := mem_query_col_elim m _ c1 h1
    obtain ⟨-, -, -, hcol2, hrep2⟩ := mem_query_col_elim m _ c2 h2
    have hpair := Coordinate.child_of_inj _ _ _ he
    have hr : c1.row = c2.row := congrArg Prod.fst hpair
    rw [hrep1, hrep2, hr]
  have hkeysnd : ((((m.query_col ⟨p,
        (walkRight m.grammars (m.grammars.length + 1) coord).col⟩).map
          (fun c => (c.row, c.col + 1))).map
            (fun rc => (Coordinate.child_of p rc, Grammar.default))).map Prod.fst).Nodup := by
    rw [hkeys]
    exact List.Nodup.map_on hinj hQn
  have hfreshkv : ∀ kv ∈ ((m.query_col ⟨p,
        (walkRight m.grammars (m.grammars.length + 1) coord).col⟩).map
          (fun c => (c.row, c.col + 1))).map
            (fun rc => (Coordinate.child_of p rc, Grammar.default)),
      alookup m.grammars kv.1 = none := by
    intro kv hkv
    obtain ⟨rc, hrc, rfl⟩ := List.mem_map.mp hkv
    obtain ⟨c, hc, rfl⟩ := List.mem_map.mp hrc
    exact hfresh c hc
  have hpnot : p ∉ (((m.query_col ⟨p,
        (walkRight m.grammars (m.grammars.length + 1) coord).col⟩).map
          (fun c => (c.row, c.col + 1))).map
            (fun rc => (Coordinate.child_of p rc, Grammar.default))).map Prod.fst := by
    rw [hkeys]
    intro hmem
    obtain ⟨c, hc, habs⟩ := List.mem_map.mp hmem
    exact Coordinate.child_of_ne_parent p _ habs
  have heq : m.insertCol = some { m with grammars :=
      (ainsert (insertList m.grammars
        (((m.query_col ⟨p,
            (walkRight m.grammars (m.grammars.length + 1) coord).col⟩).map
              (fun c => (c.row, c.col + 1))).map
                (fun rc => (Coordinate.child_of p rc, Grammar.default)))) p
        ⟨pg.name, pg.style, Kind.Grid (subs ++
          (m.query_col ⟨p,
            (walkRight m.grammars (m.grammars.length + 1) coord).col⟩).map
              (fun c => (c.row, c.col + 1)))⟩) } := by
    simp only [Model.insertCol, hact, hfc, hp, hpg, hkind]
  refine ⟨_, heq, ?_, ?_, ?_, ?_, rfl, rfl, rfl⟩
  · intro c hc
    simp only
    rw [alookup_ainsert_ne _ _ _ _ (Coordinate.child_of_ne_parent p _)]
    exact alookup_insertList_mem _ _ _ _ hkeysnd
      (List.mem_map.mpr ⟨(c.row, c.col + 1), List.mem_map.mpr ⟨c, hc, rfl⟩, rfl⟩)
  · simp only
    exact alookup_ainsert_self _ _ _
  · simp only
    have hppres : alookup (insertList m.grammars
        (((m.query_col ⟨p,
            (walkRight m.grammars (m.grammars.length + 1) coord).col⟩).map
              (fun c => (c.row, c.col + 1))).map
                (fun rc => (Coordinate.child_of p rc, Grammar.default)))) p = some pg := by
      rw [alookup_insertList_not_mem _ _ _ hpnot]
      exact hpg
    rw [length_ainsert_present _ _ _ (by rw [hppres]; rfl),
      length_insertList_fresh _ _ hkeysnd hfreshkv]
    simp
  · intro k v hkv hkp
    simp only
    have hknot : k ∉ (((m.query_col ⟨p,
          (walkRight m.grammars (m.grammars.length + 1) coord).col⟩).map
            (fun c => (c.row, c.col + 1))).map
              (fun rc => (Coordinate.child_of p rc, Grammar.default))).map Prod.fst := by
      rw [hkeys]
      intro hmem
      obtain ⟨c, hc, rfl⟩ := List.mem_map.mp hmem
      rw [hfresh c hc] at hkv
      exact absurd hkv (by simp)
    rw [alookup_ainsert_ne _ _ _ _ hkp, alookup_insertList_not_mem _ _ _ hknot]
    exact hkv


theorem insertRow_core (m : Model) (coord p : Coordinate) (pg : Grammar)
    (subs : List (Nat × Nat))
    (hact : m.active_cell = some coord)
    (hne : coord.row_cols ≠ [])
    (hp : coord.parent = some p)
    (hpg : alookup m.grammars p = some pg)
    (hkind : pg.kind = Kind.Grid subs)
    (hnodup : (akeys m.grammars).Nodup)
    (hfresh : ∀ c ∈ m.query_row ⟨p,
        (walkBelow m.grammars (m.grammars.length + 1) coord).row⟩,
      alookup m.grammars (Coordinate.child_of p (c.row + 1, c.col)) = none) :
    ∃ m', m.insertRow = some m' ∧
      (∀ c ∈ m.query_row ⟨p, (walkBelow m.grammars (m.grammars.length + 1) coord).row⟩,
        alookup m'.grammars (Coordinate.child_of p (c.row + 1, c.col)) =
          some Grammar.default) ∧
      alookup m'.grammars p = some ⟨pg.name, pg.style, Kind.Grid (subs ++
        (m.query_row ⟨p, (walkBelow m.grammars (m.grammars.length + 1) coord).row⟩).map
          (fun c => (c.row + 1, c.col)))⟩ ∧
      m'.grammars.length = m.grammars.length +
        (m.query_row ⟨p,
          (walkBelow m.grammars (m.grammars.length + 1) coord).row⟩).length ∧
      (∀ k v, alookup m.grammars k = some v → k ≠ p → alookup m'.grammars k = some v) ∧
      m'.active_cell = m.active_cell ∧
      m'.row_heights = m.row_heights ∧ m'.col_widths = m.col_widths := by
  have hfc := walkBelow_full_row m.grammars (m.grammars.length + 1) coord p hne hp
  have hkeys : (((m.query_row ⟨p,
        (walkBelow m.grammars (m.grammars.length + 1) coord).row⟩).map
          (fun c => (c.row + 1, c.col))).map
            (fun rc => (Coordinate.child_of p rc, Grammar.default))).map Prod.fst =
      (m.query_row ⟨p, (walkBelow m.grammars (m.grammars.length + 1) coord).row⟩).map
        (fun c => Coordinate.child_of p (c.row + 1, c.col)) := by
    simp [List.map_map, Function.comp]
  have hQn : (m.query_row ⟨p,
      (walkBelow m.grammars (m.grammars.length + 1) coord).row⟩).Nodup :=
    List.Nodup.filter _ hnodup
  have hinj : ∀ c1 ∈ m.query_row ⟨p,
        (walkBelow m.grammars (m.grammars.length + 1) coord).row⟩,
      ∀ c2 ∈ m.query_row ⟨p,
        (walkBelow m.grammars (m.grammars.length + 1) coord).row⟩,
      Coordinate.child_of p (c1.row + 1, c1.col) =
        Coordinate.child_of p (c2.row + 1, c2.col) → c1 = c2 := by
    intro c1 h1 c2 h2 he
    obtain ⟨-, -, -, hcol1, hrep1⟩ := mem_query_row_elim m _ c1 h1
    obtain ⟨-, -, -, hcol2, hrep2⟩ := mem_query_row_elim m _ c2 h2
    have hpair := Coordinate.child_of_inj _ _ _ he
    have hr : c1.col = c2.col := congrArg Prod.snd hpair
    rw [hrep1, hrep2, hr]
  have hkeysnd : ((((m.query_row ⟨p,
        (walkBelow m.grammars (m.grammars.length + 1) coord).row⟩).map
          (fun c => (c.row + 1, c.col))).map
            (fun rc => (Coordinate.child_of p rc, Grammar.default))).map Prod.fst).Nodup := by
    rw [hkeys]
    exact List.Nodup.map_on hinj hQn
  have hfreshkv : ∀ kv ∈ ((m.query_row ⟨p,
        (walkBelow m.grammars (m.grammars.length + 1) coord).row⟩).map
          (fun c => (c.row + 1, c.col))).map
            (fun rc => (Coordinate.child_of p rc, Grammar.default)),
      alookup m.grammars kv.1 = none := by
    intro kv hkv
    obtain ⟨rc, hrc, rfl⟩ := List.mem_map.mp hkv
    obtain ⟨c, hc, rfl⟩ := List.mem_map.mp hrc
    exact hfresh c hc
  have hpnot : p ∉ (((m.query_row ⟨p,
        (walkBelow m.grammars (m.grammars.length + 1) coord).row⟩).map
          (fun c => (c.row + 1, c.col))).map
            (fun rc => (Coordinate.child_of p rc, Grammar.default))).map Prod.fst := by
    rw [hkeys]
    intro hmem
    obtain ⟨c, hc, habs⟩ := List.mem_map.mp hmem
    exact Coordinate.child_of_ne_parent p _ habs
  have heq : m.insertRow = some { m with grammars :=
      (ainsert (insertList m.grammars
        (((m.query_row ⟨p,
            (walkBelow m.grammars (m.grammars.length + 1) coord).row⟩).map
              (fun c => (c.row + 1, c.col))).map
                (fun rc => (Coordinate.child_of p rc, Grammar.default)))) p
        ⟨pg.name, pg.style, Kind.Grid (subs ++
          (m.query_row ⟨p,
            (walkBelow m.grammars (m.grammars.length + 1) coord).row⟩).map
              (fun c => (c.row + 1, c.col)))⟩) } := by
    simp only [Model.insertRow, hact, hfc, hp, hpg, hkind]
  refine ⟨_, heq, ?_, ?_, ?_, ?_, rfl, rfl, rfl⟩
  · intro c hc
    simp only
    rw [alookup_ainsert_ne _ _ _ _ (Coordinate.child_of_ne_parent p _)]
    exact alookup_insertList_mem _ _ _ _ hkeysnd
      (List.mem_map.mpr ⟨(c.row + 1, c.col), List.mem_map.mpr ⟨c, hc, rfl⟩, rfl⟩)
  · simp only
    exact alookup_ainsert_self _ _ _
  · simp only
    have hppres : alookup (insertList m.grammars
        (((m.query_row ⟨p,
            (walkBelow m.grammars (m.grammars.length + 1) coord).row⟩).map
              (fun c => (c.row + 1, c.col))).map
                (fun rc => (Coordinate.child_of p rc, Grammar.default)))) p = some pg := by
      rw [alookup_insertList_not_mem _ _ _ hpnot]
      exact hpg
    rw [length_ainsert_present _ _ _ (by rw [hppres]; rfl),
      length_insertList_fresh _ _ hkeysnd hfreshkv]
    simp
  · intro k v hkv hkp
    simp only
    have hknot : k ∉ (((m.query_row ⟨p,
          (walkBelow m.grammars (m.grammars.length + 1) coord).row⟩).map
            (fun c => (c.row + 1, c.col))).map
              (fun rc => (Coordinate.child_of p rc, Grammar.default))).map Prod.fst := by
      rw [hkeys]
      intro hmem
      obtain ⟨c, hc, rfl⟩ := List.mem_map.mp hmem
      rw [hfresh c hc] at hkv
      exact absurd hkv (by simp)
    rw [alookup_ainsert_ne _ _ _ _ hkp, alookup_insertList_not_mem _ _ _ hknot]
    exact hkv


theorem Coordinate.parent_elim (c p : Coordinate) (h : c.parent = some p) :
    p.row_cols = c.row_cols.dropLast ∧ c.row_cols.length ≠ 1 := by
  unfold Coordinate.parent at h
  split at h
  · exact absurd h (by simp)
  · rename_i hcond
    refine ⟨?_, hcond⟩
    have h2 := Option.some_inj.mp h
    rw [← h2]

theorem addNestedGrid_core (m : Model) (coord p : Coordinate) (rows cols : Nat)
    (hrows : rows ≠ 0) (hcols : cols ≠ 0)
    (hne : coord.row_cols ≠ [])
    (hp : coord.parent = some p)
    (hin : (alookup m.grammars coord).isSome)
    (hoff : (gridOffsets rows cols).Nodup)
    (hfresh : ∀ off ∈ gridOffsets rows cols,
      alookup m.grammars (Coordinate.child_of coord off) = none) :
    ∃ m', m.addNestedGrid coord rows cols = some m' ∧
      (∀ off ∈ gridOffsets rows cols,
        alookup m'.grammars (Coordinate.child_of coord off) = some Grammar.default ∧
        (Coordinate.child_of coord off).parent = some coord ∧
        (alookup m.row_heights ⟨coord, off.1⟩ = none →
          alookup m'.row_heights ⟨coord, off.1⟩ = some 30) ∧
        (∀ v, alookup m.row_heights ⟨coord, off.1⟩ = some v →
          alookup m'.row_heights ⟨coord, off.1⟩ = some v) ∧
        (alookup m.col_widths ⟨coord, off.2⟩ = none →
          alookup m'.col_widths ⟨coord, off.2⟩ = some 90) ∧
        (∀ v, alookup m.col_widths ⟨coord, off.2⟩ = some v →
          alookup m'.col_widths ⟨coord, off.2⟩ = some v)) ∧
      alookup m'.grammars coord = some (Grammar.as_grid rows cols) ∧
      m'.grammars.length = m.grammars.length + (gridOffsets rows cols).length ∧
      m'.active_cell = ((gridOffsets rows cols).head?).map
        (fun sc => Coordinate.child_of coord sc) := by
  obtain ⟨hpdrop, hlen1⟩ := Coordinate.parent_elim coord p hp
  have hlen0 : coord.row_cols.length ≠ 0 := fun h => hne (List.length_eq_zero.mp h)
  have hlen2 : 2 ≤ coord.row_cols.length := by omega
  have hplen : p.row_cols.length = coord.row_cols.length - 1 := by
    rw [hpdrop, List.length_dropLast]
  have hchild_ne_p : ∀ off : Nat × Nat, Coordinate.child_of coord off ≠ p := by
    intro off h
    have h2 := congrArg (fun c : Coordinate => c.row_cols.length) h
    simp only [Coordinate.length_child_of] at h2
    omega
  have hchild_ne_coord : ∀ off : Nat × Nat, Coordinate.child_of coord off ≠ coord := by
    intro off h
    have h2 := congrArg (fun c : Coordinate => c.row_cols.length) h
    simp only [Coordinate.length_child_of] at h2
    omega
  have hcoord_ne_p : coord ≠ p := by
    intro h
    have h2 := congrArg (fun c : Coordinate => c.row_cols.length) h
    simp only at h2
    omega
  have hkeys : (((gridOffsets rows cols).map
        (fun off => (Coordinate.child_of coord off, Grammar.default))).map Prod.fst) =
      (gridOffsets rows cols).map (fun off => Coordinate.child_of coord off) := by
    simp [List.map_map, Function.comp]
  have hkeysnd : ((((gridOffsets rows cols).map
        (fun off => (Coordinate.child_of coord off, Grammar.default))).map Prod.fst)).Nodup := by
    rw [hkeys]
    exact List.Nodup.map (fun a b h => Coordinate.child_of_inj _ _ _ h) hoff
  have hfreshkv : ∀ kv ∈ (gridOffsets rows cols).map
        (fun off => (Coordinate.child_of coord off, Grammar.default)),
      alookup m.grammars kv.1 = none := by
    intro kv hkv
    obtain ⟨off, hoffm, rfl⟩ := List.mem_map.mp hkv
    exact hfresh off hoffm
  -- facts about the child-insert stage g1
  have hg1child : ∀ off ∈ gridOffsets rows cols,
      alookup (insertList m.grammars ((gridOffsets rows cols).map
        (fun off => (Coordinate.child_of coord off, Grammar.default))))
        (Coordinate.child_of coord off) = some Grammar.default := by
    intro off hoffm
    exact alookup_insertList_mem _ _ _ _ hkeysnd (List.mem_map.mpr ⟨off, hoffm, rfl⟩)
  have hg1coord : alookup (insertList m.grammars ((gridOffsets rows cols).map
        (fun off => (Coordinate.child_of coord off, Grammar.default)))) coord =
      alookup m.grammars coord := by
    refine alookup_insertList_not_mem _ _ _ ?_
    rw [hkeys]
    intro hmem
    obtain ⟨off, hoffm, habs⟩ := List.mem_map.mp hmem
    exact hchild_ne_coord off habs
  have hg1len : (insertList m.grammars ((gridOffsets rows cols).map
        (fun off => (Coordinate.child_of coord off, Grammar.default)))).length =
      m.grammars.length + (gridOffsets rows cols).length := by
    rw [length_insertList_fresh _ _ hkeysnd hfreshkv]
    simp
  -- the parent-kind overwrite stage g2, packaged so both branches share one shape
  obtain ⟨g2, hg2eq, hg2ne, hg2len⟩ : ∃ g2,
      (match alookup (insertList m.grammars ((gridOffsets rows cols).map
          (fun off => (Coordinate.child_of coord off, Grammar.default)))) p with
        | some pgv => ainsert (insertList m.grammars ((gridOffsets rows cols).map
            (fun off => (Coordinate.child_of coord off, Grammar.default)))) p
            { pgv with kind := (Grammar.as_grid rows cols).kind }
        | none => insertList m.grammars ((gridOffsets rows cols).map
            (fun off => (Coordinate.child_of coord off, Grammar.default)))) = g2 ∧
      (∀ k, k ≠ p → alookup g2 k =
        alookup (insertList m.grammars ((gridOffsets rows cols).map
          (fun off => (Coordinate.child_of coord off, Grammar.default)))) k) ∧
      g2.length = (insertList m.grammars ((gridOffsets rows cols).map
        (fun off => (Coordinate.child_of coord off, Grammar.default)))).length := by
    rcases halp : alookup (insertList m.grammars ((gridOffsets rows cols).map
        (fun off => (Coordinate.child_of coord off, Grammar.default)))) p with _ | pgv
    · exact ⟨_, rfl, fun k _ => rfl, rfl⟩
    · refine ⟨_, rfl, ?_, ?_⟩
      · intro k hk
        exact alookup_ainsert_ne _ _ _ _ hk
      · exact length_ainsert_present _ _ _ (by rw [halp]; rfl)
  have heq : m.addNestedGrid coord rows cols = some { m with
      grammars := (ainsert g2 coord (Grammar.as_grid rows cols)),
      row_heights := (ainsert (ensureAll m.row_heights ((gridOffsets rows cols).map
        (fun off => (⟨coord, off.1⟩ : Row))) 30) ⟨p, coord.row⟩ (rows * 30)),
      col_widths := (ainsert (ensureAll m.col_widths ((gridOffsets rows cols).map
        (fun off => (⟨coord, off.2⟩ : Col))) 90) ⟨p, coord.col⟩ (cols * 90)),
      active_cell := ((gridOffsets rows cols).head?).map
        (fun sc => Coordinate.child_of coord sc) } := by
    rw [← hg2eq]
    simp only [Model.addNestedGrid, hrows, hcols, hlen0, hp]
    simp
  refine ⟨_, heq, ?_, ?_, ?_, rfl⟩
  · intro off hoffm
    refine ⟨?_, ?_, ?_, ?_, ?_, ?_⟩
    · simp only
      rw [alookup_ainsert_ne _ _ _ _ (hchild_ne_coord off), hg2ne _ (hchild_ne_p off)]
      exact hg1child off hoffm
    · exact Coordinate.parent_child_of coord off hne
    · intro habs
      simp only
      rw [alookup_ainsert_ne _ _ _ _ (fun hh : (⟨coord, off.1⟩ : Row) = ⟨p, coord.row⟩ =>
        hcoord_ne_p (congrArg Row.parentc hh))]
      exact alookup_ensureAll_absent _ _ _ _ habs (List.mem_map.mpr ⟨off, hoffm, rfl⟩)
    · intro v hv
      simp only
      rw [alookup_ainsert_ne _ _ _ _ (fun hh : (⟨coord, off.1⟩ : Row) = ⟨p, coord.row⟩ =>
        hcoord_ne_p (congrArg Row.parentc hh))]
      exact alookup_ensureAll_present _ _ _ _ _ hv
    · intro habs
      simp only
      rw [alookup_ainsert_ne _ _ _ _ (fun hh : (⟨coord, off.2⟩ : Col) = ⟨p, coord.col⟩ =>
        hcoord_ne_p (congrArg Col.parentc hh))]
      exact alookup_ensureAll_absent _ _ _ _ habs (List.mem_map.mpr ⟨off, hoffm, rfl⟩)
    · intro v hv
      simp only
      rw [alookup_ainsert_ne _ _ _ _ (fun hh : (⟨coord, off.2⟩ : Col) = ⟨p, coord.col⟩ =>
        hcoord_ne_p (congrArg Col.parentc hh))]
      exact alookup_ensureAll_present _ _ _ _ _ hv
  · simp only
    exact alookup_ainsert_self _ _ _
  · simp only
    rw [length_ainsert_present _ _ _ (by rw [hg2ne _ hcoord_ne_p, hg1coord]; exact hin),
      hg2len, hg1len]



theorem insertCol_preserves_sizes (m m' : Model) (h : m.insertCol = some m') :
    m'.row_heights = m.row_heights ∧ m'.col_widths = m.col_widths := by
  simp only [Model.insertCol] at h
  repeat' split at h
  all_goals cases h
  all_goals exact ⟨rfl, rfl⟩

theorem insertRow_preserves_sizes (m m' : Model) (h : m.insertRow = some m') :
    m'.row_heights = m.row_heights ∧ m'.col_widths = m.col_widths := by
  simp only [Model.insertRow] at h
  repeat' split at h
  all_goals cases h
  all_goals exact ⟨rfl, rfl⟩

/-! ### Decimal rendering and parsing lemmas -/

theorem natCharsAux_congr : ∀ f1 f2 n : Nat, n ≤ f1 → n ≤ f2 →
    natCharsAux f1 n = natCharsAux f2 n := by
  intro f1
  induction f1 with
  | zero =>
    intro f2 n h1 h2
    have h0 : n = 0 := Nat.le_zero.mp h1
    subst h0
    cases f2 with
    | zero => rfl
    | succ b => simp [natCharsAux]
  | succ a ih =>
    intro f2 n h1 h2
    cases f2 with
    | zero =>
      have h0 : n = 0 := Nat.le_zero.mp h2
      subst h0
      simp [natCharsAux]
    | succ b =>
      by_cases hn : n < 10
      · simp [natCharsAux, hn]
      · simp only [natCharsAux, if_neg hn]
        have h10 : 10 ≤ n := Nat.le_of_not_lt hn
        rw [ih b (n / 10) (by omega) (by omega)]

theorem natChars_eq (n : Nat) :
    natChars n = if n < 10 then [48 + n] else natChars (n / 10) ++ [48 + n % 10] := by
  unfold natChars
  by_cases hn : n < 10
  · rw [if_pos hn]
    cases n with
    | zero => rfl
    | succ k => simp [natCharsAux, hn]
  · rw [if_neg hn]
    have h10 : 10 ≤ n := Nat.le_of_not_lt hn
    obtain ⟨a, rfl⟩ : ∃ a, n = a + 1 := ⟨n - 1, by omega⟩
    simp only [natCharsAux, if_neg hn]
    rw [natCharsAux_congr a ((a + 1) / 10) ((a + 1) / 10) (by omega) (by omega)]

theorem digitsVal_append (xs : List Nat) (d : Nat) :
    digitsVal (xs ++ [d]) = 10 * digitsVal xs + (d - 48) := by
  unfold digitsVal
  rw [List.foldl_append]
  rfl

theorem digitsVal_fold_ge (t : List Nat) :
    ∀ a, a ≤ t.foldl (fun a c => 10 * a + (c - 48)) a := by
  induction t with
  | nil => intro a; exact Nat.le_refl a
  | cons d t ih =>
    intro a
    simp only [List.foldl_cons]
    exact Nat.le_trans (by omega) (ih (10 * a + (d - 48)))

theorem digitsVal_pos (d : Nat) (t : List Nat) (hd : 49 ≤ d) :
    1 ≤ digitsVal (d :: t) := by
  unfold digitsVal
  simp only [List.foldl_cons]
  have h1 := digitsVal_fold_ge t (10 * 0 + (d - 48))
  exact Nat.le_trans (show 1 ≤ 10 * 0 + (d - 48) by omega) h1

theorem natChars_digit (d : Nat) (hd : d ≤ 9) : natChars d = [48 + d] := by
  rw [natChars_eq, if_pos (by omega)]

theorem natChars_append10 (mv d : Nat) (hm : 1 ≤ mv) (hd : d ≤ 9) :
    natChars (10 * mv + d) = natChars mv ++ [48 + d] := by
  rw [natChars_eq, if_neg (by omega)]
  have h1 : (10 * mv + d) / 10 = mv := by omega
  have h2 : (10 * mv + d) % 10 = d := by omega
  rw [h1, h2]

theorem natChars_digitsVal (ds : List Nat) (h : canonDigits ds = true) :
    natChars (digitsVal ds) = ds := by
  induction ds using List.reverseRecOn with
  | nil => simp [canonDigits] at h
  | append_singleton xs d ih =>
    rcases xs with _ | ⟨x, xt⟩
    · simp only [List.nil_append] at h ⊢
      simp only [canonDigits, isDigitCode, Bool.and_eq_true,
        decide_eq_true_eq, List.all_nil, and_true] at h
      have hd1 : 48 ≤ d := h.1.1
      have hd2 : d ≤ 57 := h.1.2
      have hv : digitsVal [d] = d - 48 := by
        unfold digitsVal
        simp
      rw [hv, natChars_digit (d - 48) (by omega)]
      have he : 48 + (d - 48) = d := by omega
      rw [he]
    · have hfacts : ((48 ≤ x ∧ x ≤ 57) ∧ x ≠ 48) ∧
          xt.all isDigitCode = true ∧ (48 ≤ d ∧ d ≤ 57) := by
        have h2 := h
        simp only [canonDigits, List.cons_append, isDigitCode, List.all_append,
          List.all_cons, List.all_nil, Bool.and_eq_true, decide_eq_true_eq,
          and_true] at h2
        tauto
      have hx1 : 48 ≤ x := hfacts.1.1.1
      have hx2 : x ≤ 57 := hfacts.1.1.2
      have hx48 : x ≠ 48 := hfacts.1.2
      have hxt : xt.all isDigitCode = true := hfacts.2.1
      have hd1 : 48 ≤ d := hfacts.2.2.1
      have hd2 : d ≤ 57 := hfacts.2.2.2
      have hxcanon : canonDigits (x :: xt) = true := by
        simp only [canonDigits, isDigitCode, Bool.and_eq_true, decide_eq_true_eq]
        refine ⟨⟨?_, hx48⟩, hxt⟩
        exact ⟨hx1, hx2⟩
      have hpos : 1 ≤ digitsVal (x :: xt) := digitsVal_pos x xt (by omega)
      show natChars (digitsVal ((x :: xt) ++ [d])) = (x :: xt) ++ [d]
      rw [digitsVal_append, natChars_append10 _ _ hpos (by omega), ih hxcanon]
      have he : 48 + (d - 48) = d := by omega
      rw [he]

/-! ### Fragment parse/render lemmas -/

theorem takeWhile_append_digits (alpha ds : List Nat)
    (ha : alpha.all isUpperCode = true) (hd : ds.all isDigitCode = true) (hne : ds ≠ []) :
    (alpha ++ ds).takeWhile isUpperCode = alpha ∧
      (alpha ++ ds).dropWhile isUpperCode = ds := by
  induction alpha with
  | nil =>
    rcases ds with _ | ⟨d, t⟩
    · exact absurd rfl hne
    · simp only [List.all_cons, Bool.and_eq_true] at hd
      have hdig : 48 ≤ d ∧ d ≤ 57 := by
        have h1 := hd.1
        simp only [isDigitCode, Bool.and_eq_true, decide_eq_true_eq] at h1
        exact h1
      have hup : isUpperCode d = false := by
        simp only [isUpperCode]
        have h65 : ¬(65 ≤ d) := by omega
        simp [h65]
      exact ⟨by simp [List.takeWhile_cons, hup], by simp [List.dropWhile_cons, hup]⟩
  | cons a rest ih =>
    simp only [List.all_cons, Bool.and_eq_true] at ha
    obtain ⟨hup, hrest⟩ := ha
    obtain ⟨h1, h2⟩ := ih hrest
    constructor
    · simp only [List.cons_append, List.takeWhile_cons, hup, if_true]
      rw [h1]
    · simp only [List.cons_append, List.dropWhile_cons, hup, if_true]
      exact h2

theorem parseFragment_general (alpha ds : List Nat)
    (hane : alpha ≠ []) (ha : alpha.all isUpperCode = true)
    (hdne : ds ≠ []) (hd : ds.all isDigitCode = true)
    (hrow : digitsVal ds ≠ 0) :
    parseFragment (alpha ++ ds) = some (digitsVal ds, letterSum alpha) := by
  obtain ⟨ht, hw⟩ := takeWhile_append_digits alpha ds ha hd hdne
  simp only [parseFragment, ht, hw]
  rw [if_neg (by simp [List.isEmpty_iff, hane]),
    if_neg (by simp [List.isEmpty_iff, hdne])]
  rw [hd]
  simp only [if_true]
  rw [if_neg hrow]


theorem canonDigits_facts (d : Nat) (t : List Nat) (h : canonDigits (d :: t) = true) :
    49 ≤ d ∧ d ≤ 57 ∧ t.all isDigitCode = true := by
  simp only [canonDigits, isDigitCode, Bool.and_eq_true, decide_eq_true_eq] at h
  have h1 : 48 ≤ d := h.1.1.1
  have h2 : d ≤ 57 := h.1.1.2
  have h3 : d ≠ 48 := h.1.2
  exact ⟨by omega, h2, h.2⟩

theorem parseFragment_canon (l : Nat) (ds : List Nat)
    (hl : isUpperCode l = true) (hd : canonDigits ds = true) :
    parseFragment (l :: ds) = some (digitsVal ds, l - 64) ∧
      showPair (digitsVal ds, l - 64) = l :: ds := by
  rcases ds with _ | ⟨d, t⟩
  · simp [canonDigits] at hd
  · obtain ⟨hd1, hd2, ht⟩ := canonDigits_facts d t hd
    have hlu : 65 ≤ l ∧ l ≤ 90 := by
      simp only [isUpperCode, Bool.and_eq_true, decide_eq_true_eq] at hl
      exact hl
    have hdsall : (d :: t).all isDigitCode = true := by
      simp only [List.all_cons, Bool.and_eq_true]
      refine ⟨?_, ht⟩
      simp only [isDigitCode, Bool.and_eq_true, decide_eq_true_eq]
      exact ⟨by omega, hd2⟩
    have hpos : 1 ≤ digitsVal (d :: t) := digitsVal_pos d t hd1
    have hparse : parseFragment ([l] ++ (d :: t)) =
        some (digitsVal (d :: t), letterSum [l]) := by
      refine parseFragment_general [l] (d :: t) (by simp) ?_ (by simp) hdsall (by omega)
      simp only [List.all_cons, List.all_nil, Bool.and_eq_true, and_true]
      exact hl
    have hsum : letterSum [l] = l - 64 := by
      unfold letterSum
      simp
    constructor
    · rw [show l :: d :: t = [l] ++ (d :: t) from rfl, hparse, hsum]
    · unfold showPair
      simp only
      rw [natChars_digitsVal _ hd]
      have hle : l - 64 + 64 = l := by omega
      rw [hle]

/-! ### Split / join lemmas -/

theorem splitDash_ne_nil (l : List Nat) : splitDash l ≠ [] := by
  cases l with
  | nil => simp [splitDash]
  | cons c rest =>
    simp only [splitDash]
    rcases splitDash rest with _ | ⟨g, gs⟩
    · simp
    · by_cases hc : c = 45 <;> simp [hc]

theorem joinDash_cons_cons (c : Nat) (g : List Nat) (gs : List (List Nat)) :
    joinDash ((c :: g) :: gs) = c :: joinDash (g :: gs) := by
  cases gs with
  | nil => rfl
  | cons g2 gs2 => rfl

theorem joinDash_splitDash (l : List Nat) : joinDash (splitDash l) = l := by
  induction l with
  | nil => rfl
  | cons c rest ih =>
    rcases hs : splitDash rest with _ | ⟨g, gs⟩
    · exact absurd hs (splitDash_ne_nil rest)
    · have hstep : splitDash (c :: rest) =
          (if c = 45 then [] :: g :: gs else (c :: g) :: gs) := by
        show (match splitDash rest with
          | [] => [[]]
          | g :: gs => if c = 45 then [] :: g :: gs else (c :: g) :: gs) = _
        rw [hs]
      rw [hs] at ih
      rw [hstep]
      by_cases hc : c = 45
      · rw [if_pos hc]
        show [] ++ 45 :: joinDash (g :: gs) = c :: rest
        rw [List.nil_append, ih, hc]
      · rw [if_neg hc, joinDash_cons_cons, ih]

/-! ### Canonical-text round trip -/

theorem mapM_parseFragment_canon (fs : List (List Nat)) (h : fs.all canonFrag = true) :
    ∃ ps : List (Nat × Nat), fs.mapM parseFragment = some ps ∧ ps.map showPair = fs := by
  induction fs with
  | nil => exact ⟨[], rfl, rfl⟩
  | cons f t ih =>
    simp only [List.all_cons, Bool.and_eq_true] at h
    obtain ⟨hf, ht⟩ := h
    rcases f with _ | ⟨l, ds⟩
    · simp [canonFrag] at hf
    · simp only [canonFrag, Bool.and_eq_true] at hf
      obtain ⟨hl, hd⟩ := hf
      obtain ⟨hparse, hshow⟩ := parseFragment_canon l ds hl hd
      obtain ⟨ps, hps, hmap⟩ := ih ht
      refine ⟨(digitsVal ds, l - 64) :: ps, ?_, ?_⟩
      · rw [List.mapM_cons, hparse, hps]
        rfl
      · simp only [List.map_cons, hshow, hmap]

theorem coordShow_cons_root (ps : List (Nat × Nat)) :
    coordShow ((1, 1) :: ps) = some (joinDash (str "root" :: ps.map showPair)) := rfl

theorem coordShow_cons_meta (ps : List (Nat × Nat)) :
    coordShow ((1, 2) :: ps) = some (joinDash (str "meta" :: ps.map showPair)) := rfl

theorem to_string_parseCoordL_canon (l : List Nat) (c : Coordinate)
    (hcanon : canonText l = true) (hparse : parseCoordL l = some c) :
    c.to_string = some l := by
  rcases hs : splitDash l with _ | ⟨first, rest⟩
  · exact absurd hs (splitDash_ne_nil l)
  · have h2 := hcanon
    unfold canonText at h2
    rw [hs] at h2
    simp only [Bool.and_eq_true, Bool.or_eq_true, decide_eq_true_eq] at h2
    obtain ⟨hfirst, hall⟩ := h2
    obtain ⟨ps, hps, hmap⟩ := mapM_parseFragment_canon rest hall
    have hjoin : joinDash (first :: rest) = l := by
      rw [← hs]
      exact joinDash_splitDash l
    rcases hfirst with hroot | hmeta
    · have hpl : parseCoordL l = some ⟨(1, 1) :: ps⟩ := by
        simp only [parseCoordL, hs, hroot, hps]
        rfl
      have hc : c = ⟨(1, 1) :: ps⟩ := by
        rw [hparse] at hpl
        exact Option.some_inj.mp hpl
      subst hc
      show coordShow ((1, 1) :: ps) = some l
      rw [coordShow_cons_root, hmap, ← hroot, hjoin]
    · have hmr : ¬(str "meta" = str "root") := by decide
      have hpl : parseCoordL l = some ⟨(1, 2) :: ps⟩ := by
        simp only [parseCoordL, hs, hmeta, hps]
        rw [if_neg hmr]
        rfl
      have hc : c = ⟨(1, 2) :: ps⟩ := by
        rw [hparse] at hpl
        exact Option.some_inj.mp hpl
      subst hc
      show coordShow ((1, 2) :: ps) = some l
      rw [coordShow_cons_meta, hmap, ← hmeta, hjoin]

/-! ### Claim theorems -/

/-- C1: the map-consistency invariant fails on the code.  From the seed Session the
single operation `AddNestedGrid(root-A1, (1,1))` overwrites the parent root's whole
`kind` with the new 1×1 grid's kind (src/model.rs lines 340-342), so the key root-A2
remains in the map while its last pair (2,1) is no longer among its Grid-typed
parent's declared offsets. -/
theorem c1_parent_kind_overwrite_breaks_invariant :
    (seedModel.addNestedGrid cRootA1 1 1).map (fun m1 => alookup m1.grammars cRoot) =
      some (some ⟨"root", Style.default, Kind.Grid [(1, 1)]⟩) ∧
    (seedModel.addNestedGrid cRootA1 1 1).map
        (fun m1 => decide (cRootA2 ∈ akeys m1.grammars)) = some true ∧
    (seedModel.addNestedGrid cRootA1 1 1).map
        (fun m1 => consistentAt m1 cRootA2) = some false ∧
    (seedModel.addNestedGrid cRootA1 1 1).map mapConsistent = some false := by
  exact ⟨by decide, by decide, by decide, by decide⟩

/-- C4: invoking InsertCol/InsertRow with a length-1 active cell does not return
normally — the source panics in `Coordinate::full_col`/`full_row` (modelled `none`) —
whereas the other precondition failure (parent stored but not Grid-typed, here
meta-A1 whose entry is an Input suggestion cell) is indeed a clean no-op. -/
theorem c4_insert_with_rootlevel_active_cell_panics :
    ({ seedModel with active_cell := some cRoot } : Model).insertCol = none ∧
    ({ seedModel with active_cell := some cRoot } : Model).insertRow = none ∧
    ({ seedModel with active_cell := some cMeta } : Model).insertCol = none ∧
    ({ seedModel with active_cell := some cMeta } : Model).insertRow = none ∧
    ({ seedModel with active_cell := some ⟨[(1, 2), (1, 1), (1, 1)]⟩ } : Model).insertCol =
      some { seedModel with active_cell := some ⟨[(1, 2), (1, 1), (1, 1)]⟩ } ∧
    ({ seedModel with active_cell := some ⟨[(1, 2), (1, 1), (1, 1)]⟩ } : Model).insertRow =
      some { seedModel with active_cell := some ⟨[(1, 2), (1, 1), (1, 1)]⟩ } := by
  exact ⟨by decide, by decide, by decide, by decide, by decide, by decide⟩

/-- C9: `ChangeInput` on a cell whose stored grammar is the `Input` variant leaves the
Session completely unchanged — the handler's pattern matches only `Kind::Text`
(src/model.rs lines 270-280), contradicting the action's own doc comment
("Change string value of Input grammar").  A Text-kinded cell, by contrast, is
updated. -/
theorem c9_change_input_ignores_input_cells :
    alookup c9Model.grammars cRootA1 = some ⟨"cell", Style.default, Kind.Input "old"⟩ ∧
    c9Model.changeInput cRootA1 "new" = c9Model ∧
    alookup (seedModel.changeInput cRootA2 "typed").grammars cRootA2 =
      some ⟨"", Style.default, Kind.Text "typed"⟩ := by
  exact ⟨by decide, by decide, by decide⟩

/-- C5 counterexample: the text `root-AB12` is valid (multi-letter column fragment),
parses to the same coordinate as `root-C12` (letter-sum semantics), and renders back
as `root-C12`, so `to_string(parse(T)) = T` fails at T = `root-AB12`. -/
theorem c5_multi_letter_round_trip_fails :
    parseCoord "root-AB12" = parseCoord "root-C12" ∧
    str "root-AB12" ≠ str "root-C12" ∧
    (parseCoord "root-AB12").bind Coordinate.to_string = some (str "root-C12") ∧
    (parseCoord "root-AB12").bind Coordinate.to_string ≠ some (str "root-AB12") := by
  exact ⟨by decide, by decide, by decide, by decide⟩

/-- C8 counterexample: from the seed Session, InsertCol inserts root-C1/C2/C3 (column
3 of the root grid) into the grammar map but leaves both size maps untouched: the
column-width map has no entry for the new column's full_col `Col(root, 3)`. -/
theorem c8_insert_col_creates_no_size_entry :
    (seedModel.insertCol).map
        (fun m1 => decide ((⟨[(1, 1), (1, 3)]⟩ : Coordinate) ∈ akeys m1.grammars)) =
      some true ∧
    (seedModel.insertCol).map (fun m1 => alookup m1.col_widths ⟨cRoot, 3⟩) = some none ∧
    (seedModel.insertCol).map Model.col_widths = some seedModel.col_widths ∧
    (seedModel.insertCol).map Model.row_heights = some seedModel.row_heights := by
  exact ⟨by decide, by decide, by decide, by decide⟩

/-- C10 counterexample: on `gapModel` (active cell root-A1, parent root Grid-typed, so
the claimed precondition holds) InsertCol synthesizes (2,2) one column right of
rightmost-occupied column 1 and OVERWRITES the existing root-B2 cell, resetting its
grammar to the default — an existing key's content is rewritten. -/
theorem c10_insert_col_overwrites_existing_cell :
    gapModel.active_cell = some cRootA1 ∧
    (alookup gapModel.grammars cRoot).map Grammar.kind =
      some (Kind.Grid [(1, 1), (2, 1), (2, 2)]) ∧
    alookup gapModel.grammars ⟨[(1, 1), (2, 2)]⟩ =
      some ⟨"precious", Style.default, Kind.Text "precious"⟩ ∧
    (gapModel.insertCol).map (fun m1 => alookup m1.grammars ⟨[(1, 1), (2, 2)]⟩) =
      some (some Grammar.default) ∧
    Grammar.default ≠ ⟨"precious", Style.default, Kind.Text "precious"⟩ := by
  exact ⟨by decide, by decide, by decide, by decide, by decide⟩


/-- C2: after `add_nested_grid(C, 3, 3)` on a coordinate C that has a parent, is
stored in the map, and whose nine prospective children are fresh: exactly 9 new
coordinates appear as keys, each child's `parent()` is C, C's stored grammar is the
Grid declaring exactly those 9 row-major offsets, and the active cell becomes C's
first child. -/
theorem c2_add_nested_grid_postcondition (m : Model) (coord p : Coordinate)
    (hne : coord.row_cols ≠ []) (hp : coord.parent = some p)
    (hin : (alookup m.grammars coord).isSome)
    (hfresh : ∀ off ∈ gridOffsets 3 3,
      alookup m.grammars (Coordinate.child_of coord off) = none) :
    ∃ m', m.addNestedGrid coord 3 3 = some m' ∧
      (gridOffsets 3 3).length = 9 ∧
      (∀ off ∈ gridOffsets 3 3,
        alookup m'.grammars (Coordinate.child_of coord off) = some Grammar.default ∧
        (Coordinate.child_of coord off).parent = some coord) ∧
      alookup m'.grammars coord = some (Grammar.as_grid 3 3) ∧
      (Grammar.as_grid 3 3).kind = Kind.Grid (gridOffsets 3 3) ∧
      m'.grammars.length = m.grammars.length + 9 ∧
      m'.active_cell = some (Coordinate.child_of coord (1, 1)) := by
  obtain ⟨m', heq, hchild, hcoord, hlen, hact⟩ :=
    addNestedGrid_core m coord p 3 3 (by decide) (by decide) hne hp hin (by decide) hfresh
  refine ⟨m', heq, by decide, ?_, hcoord, rfl, ?_, ?_⟩
  · intro off hoff
    exact ⟨(hchild off hoff).1, (hchild off hoff).2.1⟩
  · rw [hlen]
    rfl
  · rw [hact]
    rfl

/-- C2 witness: the nest-grid postcondition instantiated on the seed Session at
root-A1. -/
theorem c2_witness :
    ∃ m', seedModel.addNestedGrid cRootA1 3 3 = some m' ∧
      (gridOffsets 3 3).length = 9 ∧
      (∀ off ∈ gridOffsets 3 3,
        alookup m'.grammars (Coordinate.child_of cRootA1 off) = some Grammar.default ∧
        (Coordinate.child_of cRootA1 off).parent = some cRootA1) ∧
      alookup m'.grammars cRootA1 = some (Grammar.as_grid 3 3) ∧
      (Grammar.as_grid 3 3).kind = Kind.Grid (gridOffsets 3 3) ∧
      m'.grammars.length = seedModel.grammars.length + 9 ∧
      m'.active_cell = some (Coordinate.child_of cRootA1 (1, 1)) :=
  c2_add_nested_grid_postcondition seedModel cRootA1 cRoot (by decide) (by decide)
    (by decide) (by decide)


/-- C3: with the active cell in a grid (parent Grid-typed) and the prospective new
cells fresh, InsertCol adds exactly one new default cell per populated cell of the
rightmost occupied column — same row, column + 1, same parent — and extends the
parent's declared offsets by exactly that count; moreover on the seed Session a
second InsertCol inserts relative to the NEW rightmost column (column 3, producing
column 4), not the original one. -/
theorem c3_insert_col_postcondition (m : Model) (coord p : Coordinate) (pg : Grammar)
    (subs : List (Nat × Nat))
    (hact : m.active_cell = some coord)
    (hne : coord.row_cols ≠ [])
    (hp : coord.parent = some p)
    (hpg : alookup m.grammars p = some pg)
    (hkind : pg.kind = Kind.Grid subs)
    (hnodup : (akeys m.grammars).Nodup)
    (hfresh : ∀ c ∈ m.query_col ⟨p,
        (walkRight m.grammars (m.grammars.length + 1) coord).col⟩,
      alookup m.grammars (Coordinate.child_of p (c.row, c.col + 1)) = none) :
    (∃ m', m.insertCol = some m' ∧
      (∀ c ∈ m.query_col ⟨p, (walkRight m.grammars (m.grammars.length + 1) coord).col⟩,
        alookup m'.grammars (Coordinate.child_of p (c.row, c.col + 1)) =
          some Grammar.default ∧
        (Coordinate.child_of p (c.row, c.col + 1)).parent = some p) ∧
      alookup m'.grammars p = some ⟨pg.name, pg.style, Kind.Grid (subs ++
        (m.query_col ⟨p, (walkRight m.grammars (m.grammars.length + 1) coord).col⟩).map
          (fun c => (c.row, c.col + 1)))⟩ ∧
      m'.grammars.length = m.grammars.length +
        (m.query_col ⟨p,
          (walkRight m.grammars (m.grammars.length + 1) coord).col⟩).length) ∧
    ((seedModel.insertCol).map
        (fun m1 => (alookup m1.grammars cRoot).map Grammar.kind) =
      some (some (Kind.Grid
        [(1, 1), (2, 1), (3, 1), (1, 2), (2, 2), (3, 2), (1, 3), (2, 3), (3, 3)])) ∧
     (seedModel.insertCol).map (fun m1 => alookup m1.grammars ⟨[(1, 1), (1, 4)]⟩) =
      some none ∧
     (seedModel.insertCol.bind Model.insertCol).map
        (fun m2 => alookup m2.grammars ⟨[(1, 1), (1, 4)]⟩) =
      some (some Grammar.default) ∧
     (seedModel.insertCol.bind Model.insertCol).map
        (fun m2 => (alookup m2.grammars cRoot).map Grammar.kind) =
      some (some (Kind.Grid
        [(1, 1), (2, 1), (3, 1), (1, 2), (2, 2), (3, 2), (1, 3), (2, 3), (3, 3),
         (1, 4), (2, 4), (3, 4)]))) := by
  obtain ⟨m', heq, hnew, hpar, hlen, hframe, hrest⟩ :=
    insertCol_core m coord p pg subs hact hne hp hpg hkind hnodup hfresh
  have hpne : p.row_cols ≠ [] := by
    obtain ⟨hpdrop, hlen1⟩ := Coordinate.parent_elim coord p hp
    have hlen0 : coord.row_cols.length ≠ 0 := fun h0 => hne (List.length_eq_zero.mp h0)
    intro h0
    have h2 : p.row_cols.length = 0 := by rw [h0]; rfl
    rw [hpdrop, List.length_dropLast] at h2
    omega
  refine ⟨⟨m', heq, ?_, hpar, hlen⟩, by decide, by decide, by decide, by decide⟩
  intro c hc
  exact ⟨hnew c hc, Coordinate.parent_child_of p _ hpne⟩

/-- C3 witness: the InsertCol postcondition instantiated on the seed Session (active
cell root-A1, rightmost occupied column 2 with 3 populated cells). -/
theorem c3_witness :
    (∃ m', seedModel.insertCol = some m' ∧
      (∀ c ∈ seedModel.query_col ⟨cRoot,
          (walkRight seedModel.grammars (seedModel.grammars.length + 1) cRootA1).col⟩,
        alookup m'.grammars (Coordinate.child_of cRoot (c.row, c.col + 1)) =
          some Grammar.default ∧
        (Coordinate.child_of cRoot (c.row, c.col + 1)).parent = some cRoot) ∧
      alookup m'.grammars cRoot = some ⟨rootGrammar.name, rootGrammar.style,
        Kind.Grid ([(1, 1), (2, 1), (3, 1), (1, 2), (2, 2), (3, 2)] ++
        (seedModel.query_col ⟨cRoot,
          (walkRight seedModel.grammars (seedModel.grammars.length + 1) cRootA1).col⟩).map
          (fun c => (c.row, c.col + 1)))⟩ ∧
      m'.grammars.length = seedModel.grammars.length +
        (seedModel.query_col ⟨cRoot,
          (walkRight seedModel.grammars
            (seedModel.grammars.length + 1) cRootA1).col⟩).length) ∧
    ((seedModel.insertCol).map
        (fun m1 => (alookup m1.grammars cRoot).map Grammar.kind) =
      some (some (Kind.Grid
        [(1, 1), (2, 1), (3, 1), (1, 2), (2, 2), (3, 2), (1, 3), (2, 3), (3, 3)])) ∧
     (seedModel.insertCol).map (fun m1 => alookup m1.grammars ⟨[(1, 1), (1, 4)]⟩) =
      some none ∧
     (seedModel.insertCol.bind Model.insertCol).map
        (fun m2 => alookup m2.grammars ⟨[(1, 1), (1, 4)]⟩) =
      some (some Grammar.default) ∧
     (seedModel.insertCol.bind Model.insertCol).map
        (fun m2 => (alookup m2.grammars cRoot).map Grammar.kind) =
      some (some (Kind.Grid
        [(1, 1), (2, 1), (3, 1), (1, 2), (2, 2), (3, 2), (1, 3), (2, 3), (3, 3),
         (1, 4), (2, 4), (3, 4)]))) :=
  c3_insert_col_postcondition seedModel cRootA1 cRoot rootGrammar
    [(1, 1), (2, 1), (3, 1), (1, 2), (2, 2), (3, 2)]
    (by decide) (by decide) (by decide) (by decide) (by decide) (by decide) (by decide)


/-- C5 amended: the forward round-trip `to_string(parse(T)) = T` holds for every
canonical coordinate text — one that starts with the literal `root` or `meta` token
and whose remaining fragments each consist of a single letter A-Z and a decimal row
without leading zeros.  (Texts with multi-letter column fragments collide under the
letter-sum parse and cannot round-trip; see the counterexample.) -/
theorem c5_canonical_round_trip (s : String) (c : Coordinate)
    (hcanon : canonText (str s) = true) (hparse : parseCoord s = some c) :
    c.to_string = some (str s) :=
  to_string_parseCoordL_canon (str s) c hcanon hparse

/-- C5 witness: the canonical text `root-A1-B2-B3` round-trips. -/
theorem c5_witness :
    (⟨[(1, 1), (1, 1), (2, 2), (3, 2)]⟩ : Coordinate).to_string =
      some (str "root-A1-B2-B3") :=
  c5_canonical_round_trip "root-A1-B2-B3" ⟨[(1, 1), (1, 1), (2, 2), (3, 2)]⟩
    (by decide) (by decide)

theorem letterSum_eq_sum (ls : List Nat) :
    letterSum ls = (ls.map (fun ch => ch - 64)).sum := by
  have hgen : ∀ (xs : List Nat) (a : Nat),
      xs.foldl (fun a c => a + (c - 64)) a = a + (xs.map (fun ch => ch - 64)).sum := by
    intro xs
    induction xs with
    | nil => intro a; simp
    | cons x xt ih =>
      intro a
      simp only [List.foldl_cons, List.map_cons, List.sum_cons, ih]
      omega
  unfold letterSum
  rw [hgen]
  omega

/-- C6: a fragment's alphabetic run parses by summing the per-character offsets
(A = 1, ..., Z = 26) — so `AB12` gives column 1 + 2 = 3, not positional base-26 — and
its digit run parses as the decimal row; in particular
row(parse(root-A1-B2-B3)) = 3 and col(parse(root-A1-E13-Z3)) = 26. -/
theorem c6_letter_sum_semantics (alpha ds : List Nat)
    (hane : alpha ≠ []) (ha : alpha.all isUpperCode = true)
    (hdne : ds ≠ []) (hd : ds.all isDigitCode = true)
    (hrow : digitsVal ds ≠ 0) :
    parseFragment (alpha ++ ds) = some (digitsVal ds, letterSum alpha) ∧
    letterSum alpha = (alpha.map (fun ch => ch - 64)).sum ∧
    parseFragment (str "AB12") = some (12, 3) ∧
    (parseCoord "root-A1-B2-B3").map Coordinate.row = some 3 ∧
    (parseCoord "root-A1-E13-Z3").map Coordinate.col = some 26 :=
  ⟨parseFragment_general alpha ds hane ha hdne hd hrow, letterSum_eq_sum alpha,
    by decide, by decide, by decide⟩

/-- C6 witness: the fragment semantics instantiated at the multi-letter run `AB`
with digit run `12`. -/
theorem c6_witness :
    parseFragment (str "AB" ++ str "12") =
      some (digitsVal (str "12"), letterSum (str "AB")) ∧
    letterSum (str "AB") = ((str "AB").map (fun ch => ch - 64)).sum ∧
    parseFragment (str "AB12") = some (12, 3) ∧
    (parseCoord "root-A1-B2-B3").map Coordinate.row = some 3 ∧
    (parseCoord "root-A1-E13-Z3").map Coordinate.col = some 26 :=
  c6_letter_sum_semantics (str "AB") (str "12") (by decide) (by decide) (by decide)
    (by decide) (by decide)

/-- C7: for a coordinate with a positive last pair (r, k), neighbor_above/left are
`none` exactly at r = 1 / k = 1 and otherwise decrement that component holding the
ancestor pairs fixed, while neighbor_below/right always succeed, incrementing the
component; including the spec's concrete examples. -/
theorem c7_neighbor_semantics (c : Coordinate) (r k : Nat)
    (hlast : c.row_cols.getLast? = some (r, k)) (hr : 1 ≤ r) (hk : 1 ≤ k) :
    (c.neighbor_above = none ↔ r = 1) ∧
    (1 < r → c.neighbor_above = some ⟨c.row_cols.dropLast ++ [(r - 1, k)]⟩) ∧
    (c.neighbor_left = none ↔ k = 1) ∧
    (1 < k → c.neighbor_left = some ⟨c.row_cols.dropLast ++ [(r, k - 1)]⟩) ∧
    c.neighbor_below = some ⟨c.row_cols.dropLast ++ [(r + 1, k)]⟩ ∧
    c.neighbor_right = some ⟨c.row_cols.dropLast ++ [(r, k + 1)]⟩ ∧
    (parseCoord "root-A1-B2-B3").bind Coordinate.neighbor_above =
      parseCoord "root-A1-B2-B2" ∧
    (parseCoord "root-A1-B2-B3").bind Coordinate.neighbor_right =
      parseCoord "root-A1-B2-C3" ∧
    (parseCoord "root-A1-B2-B1").bind Coordinate.neighbor_above = none ∧
    (parseCoord "root-A1-B2-A3").bind Coordinate.neighbor_left = none := by
  have habove : c.neighbor_above =
      (if r > 1 then some ⟨c.row_cols.dropLast ++ [(r - 1, k)]⟩ else none) := by
    unfold Coordinate.neighbor_above
    rw [hlast]
  have hleft : c.neighbor_left =
      (if k > 1 then some ⟨c.row_cols.dropLast ++ [(r, k - 1)]⟩ else none) := by
    unfold Coordinate.neighbor_left
    rw [hlast]
  have hbelow : c.neighbor_below = some ⟨c.row_cols.dropLast ++ [(r + 1, k)]⟩ := by
    unfold Coordinate.neighbor_below
    rw [hlast]
  have hright : c.neighbor_right = some ⟨c.row_cols.dropLast ++ [(r, k + 1)]⟩ := by
    unfold Coordinate.neighbor_right
    rw [hlast]
  refine ⟨?_, ?_, ?_, ?_, hbelow, hright, by decide, by decide, by decide, by decide⟩
  · rw [habove]
    by_cases h1 : r > 1
    · rw [if_pos h1]
      constructor
      · intro h2
        exact absurd h2 (by simp)
      · intro h2
        omega
    · rw [if_neg h1]
      exact ⟨fun _ => by omega, fun _ => rfl⟩
  · intro h1
    rw [habove, if_pos h1]
  · rw [hleft]
    by_cases h1 : k > 1
    · rw [if_pos h1]
      constructor
      · intro h2
        exact absurd h2 (by simp)
      · intro h2
        omega
    · rw [if_neg h1]
      exact ⟨fun _ => by omega, fun _ => rfl⟩
  · intro h1
    rw [hleft, if_pos h1]

/-- C7 witness: the neighbor semantics instantiated at the coordinate root-B3
(last pair (3, 2)). -/
theorem c7_witness :
    ((⟨[(1, 1), (3, 2)]⟩ : Coordinate).neighbor_above = none ↔ (3 : Nat) = 1) ∧
    ((1 : Nat) < 3 → (⟨[(1, 1), (3, 2)]⟩ : Coordinate).neighbor_above =
      some ⟨([(1, 1), (3, 2)] : List (Nat × Nat)).dropLast ++ [(3 - 1, 2)]⟩) ∧
    ((⟨[(1, 1), (3, 2)]⟩ : Coordinate).neighbor_left = none ↔ (2 : Nat) = 1) ∧
    ((1 : Nat) < 2 → (⟨[(1, 1), (3, 2)]⟩ : Coordinate).neighbor_left =
      some ⟨([(1, 1), (3, 2)] : List (Nat × Nat)).dropLast ++ [(3, 2 - 1)]⟩) ∧
    (⟨[(1, 1), (3, 2)]⟩ : Coordinate).neighbor_below =
      some ⟨([(1, 1), (3, 2)] : List (Nat × Nat)).dropLast ++ [(3 + 1, 2)]⟩ ∧
    (⟨[(1, 1), (3, 2)]⟩ : Coordinate).neighbor_right =
      some ⟨([(1, 1), (3, 2)] : List (Nat × Nat)).dropLast ++ [(3, 2 + 1)]⟩ ∧
    (parseCoord "root-A1-B2-B3").bind Coordinate.neighbor_above =
      parseCoord "root-A1-B2-B2" ∧
    (parseCoord "root-A1-B2-B3").bind Coordinate.neighbor_right =
      parseCoord "root-A1-B2-C3" ∧
    (parseCoord "root-A1-B2-B1").bind Coordinate.neighbor_above = none ∧
    (parseCoord "root-A1-B2-A3").bind Coordinate.neighbor_left = none :=
  c7_neighbor_semantics ⟨[(1, 1), (3, 2)]⟩ 3 2 (by decide) (by decide) (by decide)


/-- C8 amended: only the nest-grid operation eagerly creates default size entries
(30.0 height / 90.0 width) for its inserted children's full_row/full_col, never
overwriting existing entries; InsertCol and InsertRow leave both size maps entirely
unchanged, so their inserted coordinates' columns and rows may lack entries (see the
counterexample). -/
theorem c8_amended_eager_defaults :
    (∀ m m' : Model, m.insertCol = some m' →
      m'.row_heights = m.row_heights ∧ m'.col_widths = m.col_widths) ∧
    (∀ m m' : Model, m.insertRow = some m' →
      m'.row_heights = m.row_heights ∧ m'.col_widths = m.col_widths) ∧
    (∀ (m : Model) (coord p : Coordinate) (rows cols : Nat),
      rows ≠ 0 → cols ≠ 0 → coord.row_cols ≠ [] → coord.parent = some p →
      (alookup m.grammars coord).isSome = true →
      (gridOffsets rows cols).Nodup →
      (∀ off ∈ gridOffsets rows cols,
        alookup m.grammars (Coordinate.child_of coord off) = none) →
      ∃ m', m.addNestedGrid coord rows cols = some m' ∧
        ∀ off ∈ gridOffsets rows cols,
          alookup m'.grammars (Coordinate.child_of coord off) = some Grammar.default ∧
          (alookup m'.row_heights ⟨coord, off.1⟩).isSome = true ∧
          (alookup m'.col_widths ⟨coord, off.2⟩).isSome = true ∧
          (alookup m.row_heights ⟨coord, off.1⟩ = none →
            alookup m'.row_heights ⟨coord, off.1⟩ = some 30) ∧
          (∀ v, alookup m.row_heights ⟨coord, off.1⟩ = some v →
            alookup m'.row_heights ⟨coord, off.1⟩ = some v) ∧
          (alookup m.col_widths ⟨coord, off.2⟩ = none →
            alookup m'.col_widths ⟨coord, off.2⟩ = some 90) ∧
          (∀ v, alookup m.col_widths ⟨coord, off.2⟩ = some v →
            alookup m'.col_widths ⟨coord, off.2⟩ = some v)) := by
  refine ⟨insertCol_preserves_sizes, insertRow_preserves_sizes, ?_⟩
  intro m coord p rows cols hrows hcols hne hp hin hoff hfresh
  obtain ⟨m', heq, hchild, hcoord, hlen, hact⟩ :=
    addNestedGrid_core m coord p rows cols hrows hcols hne hp hin hoff hfresh
  refine ⟨m', heq, ?_⟩
  intro off hoffm
  obtain ⟨hg, hpar, hrabs, hrpres, hcabs, hcpres⟩ := hchild off hoffm
  refine ⟨hg, ?_, ?_, hrabs, hrpres, hcabs, hcpres⟩
  · rcases hcase : alookup m.row_heights ⟨coord, off.1⟩ with _ | v
    · rw [hrabs hcase]
      rfl
    · rw [hrpres v hcase]
      rfl
  · rcases hcase : alookup m.col_widths ⟨coord, off.2⟩ with _ | v
    · rw [hcabs hcase]
      rfl
    · rw [hcpres v hcase]
      rfl

/-- C8 amended witness: instantiated on the seed Session — InsertCol leaves the size
maps unchanged, and a 3×3 nest at root-A1 creates the default entries for its
children. -/
theorem c8_amended_witness :
    ((seedModel.insertCol).map Model.col_widths = some seedModel.col_widths) ∧
    (∃ m', seedModel.addNestedGrid cRootA1 3 3 = some m' ∧
      ∀ off ∈ gridOffsets 3 3,
        alookup m'.grammars (Coordinate.child_of cRootA1 off) = some Grammar.default ∧
        (alookup m'.row_heights ⟨cRootA1, off.1⟩).isSome = true ∧
        (alookup m'.col_widths ⟨cRootA1, off.2⟩).isSome = true ∧
        (alookup seedModel.row_heights ⟨cRootA1, off.1⟩ = none →
          alookup m'.row_heights ⟨cRootA1, off.1⟩ = some 30) ∧
        (∀ v, alookup seedModel.row_heights ⟨cRootA1, off.1⟩ = some v →
          alookup m'.row_heights ⟨cRootA1, off.1⟩ = some v) ∧
        (alookup seedModel.col_widths ⟨cRootA1, off.2⟩ = none →
          alookup m'.col_widths ⟨cRootA1, off.2⟩ = some 90) ∧
        (∀ v, alookup seedModel.col_widths ⟨cRootA1, off.2⟩ = some v →
          alookup m'.col_widths ⟨cRootA1, off.2⟩ = some v)) := by
  constructor
  · rcases hcase : seedModel.insertCol with _ | m1
    · exact absurd hcase (by decide)
    · show some m1.col_widths = some seedModel.col_widths
      rw [(c8_amended_eager_defaults.1 seedModel m1 hcase).2]
  · exact c8_amended_eager_defaults.2.2 seedModel cRootA1 cRoot 3 3 (by decide)
      (by decide) (by decide) (by decide) (by decide) (by decide) (by decide)

/-- C10 amended: when InsertCol/InsertRow run with the stated precondition AND none
of the synthesized coordinates (row of the rightmost/bottom-most occupied line,
index + 1) already exists as a key, every pre-existing key other than the active
cell's parent keeps its exact grammar, the parent's entry is replaced by the extended
Grid with the same name and style, and keys are only added, never deleted.  (With a
collision the synthesized insert overwrites an existing cell — see the
counterexample.) -/
theorem c10_amended_insert_frame :
    (∀ (m : Model) (coord p : Coordinate) (pg : Grammar) (subs : List (Nat × Nat)),
      m.active_cell = some coord → coord.row_cols ≠ [] → coord.parent = some p →
      alookup m.grammars p = some pg → pg.kind = Kind.Grid subs →
      (akeys m.grammars).Nodup →
      (∀ c ∈ m.query_col ⟨p, (walkRight m.grammars (m.grammars.length + 1) coord).col⟩,
        alookup m.grammars (Coordinate.child_of p (c.row, c.col + 1)) = none) →
      ∃ m', m.insertCol = some m' ∧
        (∀ k v, alookup m.grammars k = some v → k ≠ p → alookup m'.grammars k = some v) ∧
        (∀ k, (alookup m.grammars k).isSome = true →
          (alookup m'.grammars k).isSome = true) ∧
        alookup m'.grammars p = some ⟨pg.name, pg.style, Kind.Grid (subs ++
          (m.query_col ⟨p,
            (walkRight m.grammars (m.grammars.length + 1) coord).col⟩).map
            (fun c => (c.row, c.col + 1)))⟩) ∧
    (∀ (m : Model) (coord p : Coordinate) (pg : Grammar) (subs : List (Nat × Nat)),
      m.active_cell = some coord → coord.row_cols ≠ [] → coord.parent = some p →
      alookup m.grammars p = some pg → pg.kind = Kind.Grid subs →
      (akeys m.grammars).Nodup →
      (∀ c ∈ m.query_row ⟨p, (walkBelow m.grammars (m.grammars.length + 1) coord).row⟩,
        alookup m.grammars (Coordinate.child_of p (c.row + 1, c.col)) = none) →
      ∃ m', m.insertRow = some m' ∧
        (∀ k v, alookup m.grammars k = some v → k ≠ p → alookup m'.grammars k = some v) ∧
        (∀ k, (alookup m.grammars k).isSome = true →
          (alookup m'.grammars k).isSome = true) ∧
        alookup m'.grammars p = some ⟨pg.name, pg.style, Kind.Grid (subs ++
          (m.query_row ⟨p,
            (walkBelow m.grammars (m.grammars.length + 1) coord).row⟩).map
            (fun c => (c.row + 1, c.col)))⟩) := by
  constructor
  · intro m coord p pg subs hact hne hp hpg hkind hnodup hfresh
    obtain ⟨m', heq, hnew, hpar, hlen, hframe, hrest⟩ :=
      insertCol_core m coord p pg subs hact hne hp hpg hkind hnodup hfresh
    refine ⟨m', heq, hframe, ?_, hpar⟩
    intro k hk
    by_cases hkp : k = p
    · subst hkp
      rw [hpar]
      rfl
    · rcases hcase : alookup m.grammars k with _ | v
      · rw [hcase] at hk
        exact absurd hk (by simp)
      · rw [hframe k v hcase hkp]
        rfl
  · intro m coord p pg subs hact hne hp hpg hkind hnodup hfresh
    obtain ⟨m', heq, hnew, hpar, hlen, hframe, hrest⟩ :=
      insertRow_core m coord p pg subs hact hne hp hpg hkind hnodup hfresh
    refine ⟨m', heq, hframe, ?_, hpar⟩
    intro k hk
    by_cases hkp : k = p
    · subst hkp
      rw [hpar]
      rfl
    · rcases hcase : alookup m.grammars k with _ | v
      · rw [hcase] at hk
        exact absurd hk (by simp)
      · rw [hframe k v hcase hkp]
        rfl

/-- C10 amended witness: the frame property instantiated on the seed Session for
both operations. -/
theorem c10_amended_witness :
    (∃ m', seedModel.insertCol = some m' ∧
      (∀ k v, alookup seedModel.grammars k = some v → k ≠ cRoot →
        alookup m'.grammars k = some v) ∧
      (∀ k, (alookup seedModel.grammars k).isSome = true →
        (alookup m'.grammars k).isSome = true) ∧
      alookup m'.grammars cRoot = some ⟨rootGrammar.name, rootGrammar.style,
        Kind.Grid ([(1, 1), (2, 1), (3, 1), (1, 2), (2, 2), (3, 2)] ++
          (seedModel.query_col ⟨cRoot,
            (walkRight seedModel.grammars
              (seedModel.grammars.length + 1) cRootA1).col⟩).map
            (fun c => (c.row, c.col + 1)))⟩) ∧
    (∃ m', seedModel.insertRow = some m' ∧
      (∀ k v, alookup seedModel.grammars k = some v → k ≠ cRoot →
        alookup m'.grammars k = some v) ∧
      (∀ k, (alookup seedModel.grammars k).isSome = true →
        (alookup m'.grammars k).isSome = true) ∧
      alookup m'.grammars cRoot = some ⟨rootGrammar.name, rootGrammar.style,
        Kind.Grid ([(1, 1), (2, 1), (3, 1), (1, 2), (2, 2), (3, 2)] ++
          (seedModel.query_row ⟨cRoot,
            (walkBelow seedModel.grammars
              (seedModel.grammars.length + 1) cRootA1).row⟩).map
            (fun c => (c.row + 1, c.col)))⟩) :=
  ⟨c10_amended_insert_frame.1 seedModel cRootA1 cRoot rootGrammar
      [(1, 1), (2, 1), (3, 1), (1, 2), (2, 2), (3, 2)]
      (by decide) (by decide) (by decide) (by decide) (by decide) (by decide) (by decide),
    c10_amended_insert_frame.2 seedModel cRootA1 cRoot rootGrammar
      [(1, 1), (2, 1), (3, 1), (1, 2), (2, 2), (3, 2)]
      (by decide) (by decide) (by decide) (by decide) (by decide) (by decide) (by decide)⟩

end ISE
